import Mathlib

/-!
Shallow embedding of the Dragonfly client daemon's storage manager
(`client/daemon/storage/storage_manager.go`) and of the file peer task
(`client/daemon/peer/peertask_file.go`), with theorems checking the
natural-language specification against the code.

Modelling conventions:
* Go strings are `String`, `int64`/`int32` are `Int` (no arithmetic here
  overflows 64 bits), `float64` disk percentages are `ℚ`.
* The `tasks` `sync.Map` is an association list keyed by `PeerTaskMetadata`;
  the `indexTask2PeerTask` map holds lists of store identifiers.  Go keeps
  `*localTaskStore` pointers in both structures; we model the pointer heap
  explicitly as an association list `Nat → LocalTaskStore`, so aliasing
  between the task map and the index is exact.
* File-system side effects are represented by oracles (success flags for the
  operations `CreateTask` performs) and by explicit effect lists, and the
  on-disk data root for reload/GC is a pure value.
* `localTaskStore` itself (local_storage.go) is not part of the sources;
  its four tiny members used by the manager (`touch`, `CanReclaim`,
  `MarkReclaim`, `Reclaim`) are modelled from the spec, flagged below.
-/

namespace Dragonfly

/-- Key of a peer task: the Go struct `PeerTaskMetadata` (PeerID first, as in
the positional literal `PeerTaskMetadata{task.PeerID, task.TaskID}`). -/
structure PeerTaskMetadata where
  PeerID : String
  TaskID : String
deriving DecidableEq, Repr

/-- State of one `localTaskStore`: the persistent metadata fields plus the
runtime fields the storage manager reads (`invalid`, `reclaimMarked`,
`lastAccess`), plus a ghost flag `reclaimed` recording that `Reclaim`
deleted the store's files. -/
structure LocalTaskStore where
  StoreStrategy : String
  TaskID : String
  PeerID : String
  ContentLength : Int
  TotalPieces : Int
  PieceMd5Sign : String
  Done : Bool
  invalid : Bool
  reclaimMarked : Bool
  lastAccess : Int
  expireTime : Int
  dataDir : String
  metadataFilePath : String
  DataFilePath : String
  reclaimed : Bool
deriving DecidableEq, Repr

/-- Pointer heap: store identifiers to store states. -/
abbrev Heap := List (Nat × LocalTaskStore)

/-- Dereference a store pointer. -/
def Heap.get (h : Heap) (i : Nat) : Option LocalTaskStore :=
  match h with
  | [] => none
  | (j, t) :: rest => if j = i then some t else Heap.get rest i

/-- Mutate the store behind a pointer. -/
def Heap.set (h : Heap) (i : Nat) (t : LocalTaskStore) : Heap :=
  match h with
  | [] => []
  | (j, u) :: rest =>
    if j = i then (j, t) :: Heap.set rest i t else (j, u) :: Heap.set rest i t

/-- Association list lookup (used for the `tasks` map and the task index). -/
def alistFind {α β : Type} [DecidableEq α] (m : List (α × β)) (k : α) : Option β :=
  match m with
  | [] => none
  | (k', v) :: rest => if k' = k then some v else alistFind rest k

/-- Association list store (overwrite first binding in place, else append),
modelling `sync.Map.Store` / map assignment. -/
def alistSet {α β : Type} [DecidableEq α] (m : List (α × β)) (k : α) (v : β) : List (α × β) :=
  match m with
  | [] => [(k, v)]
  | (k', v') :: rest => if k' = k then (k, v) :: rest else (k', v') :: alistSet rest k v

/-- Association list delete, modelling `sync.Map.Delete`. -/
def alistErase {α β : Type} [DecidableEq α] : List (α × β) → α → List (α × β)
  | [], _ => []
  | (k', v) :: rest, k =>
    if k' = k then alistErase rest k else (k', v) :: alistErase rest k

/-- Modelled from the spec: the strategy name `config.SimpleLocalTaskStoreStrategy`
("Simple: single data file under dataRoot/TaskID/PeerID/data"); the config
package is not among the sources, only the string value matters. -/
def SimpleLocalTaskStoreStrategy : String := "io.d7y.storage.v2.simple"

/-- Modelled from the spec: the strategy name `config.AdvanceLocalTaskStoreStrategy`. -/
def AdvanceLocalTaskStoreStrategy : String := "io.d7y.storage.v2.advance"

/-- Modelled from the spec: the metadata file name, from the on-disk layout
"dataRoot/TaskID/PeerID/metadata" (constant `taskMetadata` lives in the
metadata source file, not included). -/
def taskMetadata : String := "metadata"

/-- Modelled from the spec: the data file name, from the on-disk layout
"dataRoot/TaskID/PeerID/data". -/
def taskData : String := "data"

/-- The state of `storageManager` that the verified operations touch.
`keepCount` models the `clientutil.KeepAlive` access mark (`Keep`). -/
structure StorageManager where
  heap : Heap
  nextID : Nat
  tasks : List (PeerTaskMetadata × Nat)
  indexTask2PeerTask : List (String × List Nat)
  markedReclaimTasks : List PeerTaskMetadata
  storeStrategy : String
  dataPath : String
  taskExpireTime : Int
  diskGCThreshold : Int
  diskGCThresholdPercent : ℚ
  gcInterval : Int
  keepCount : Nat
deriving DecidableEq, Repr

/-- Errors surfaced by the storage manager (`ErrTaskNotFound` and the various
`os` errors, which the claims never distinguish further). -/
inductive StorageErr
  | taskNotFound
  | osError (op : String)
deriving DecidableEq, Repr

/-- Result of `FindCompletedTask`: the Go struct `ReusePeerTask`, flattened. -/
structure ReusePeerTask where
  PeerID : String
  TaskID : String
  ContentLength : Int
  TotalPieces : Int
deriving DecidableEq, Repr

/-- Argument of `RegisterTask`/`CreateTask` (`RegisterTaskRequest`, with the
embedded `CommonTaskRequest` flattened). -/
structure RegisterTaskRequest where
  PeerID : String
  TaskID : String
  Destination : String
  ContentLength : Int
  TotalPieces : Int
  PieceMd5Sign : String
deriving DecidableEq, Repr

/-- Modelled from the spec: `localTaskStore.touch` updates the store's
last-access time ("touches its last-access time"); local_storage.go is not
among the sources. -/
def LocalTaskStore.touch (t : LocalTaskStore) (now : Int) : LocalTaskStore :=
  { t with lastAccess := now }

/-- Modelled from the spec: `localTaskStore.CanReclaim` holds when the
last-access time exceeds `TaskExpireTime` ("any whose last-access exceeds
TaskExpireTime ... is MarkReclaimed"); local_storage.go is not among the
sources. -/
def LocalTaskStore.CanReclaim (t : LocalTaskStore) (now : Int) : Bool :=
  t.lastAccess + t.expireTime < now

/-- Modelled from the spec: `localTaskStore.MarkReclaim` marks the store as
pending reclamation; local_storage.go is not among the sources. -/
def LocalTaskStore.MarkReclaim (t : LocalTaskStore) : LocalTaskStore :=
  { t with reclaimMarked := true }

/-- Modelled from the spec: `localTaskStore.Reclaim` deletes the store's
files ("delete data files, remove metadata"); recorded by the ghost flag
`reclaimed`; local_storage.go is not among the sources. -/
def LocalTaskStore.Reclaim (t : LocalTaskStore) : LocalTaskStore :=
  { t with reclaimed := true }

/-- Modelled from the spec: `clientutil.KeepAlive.Keep` records that the
storage was used (clientutil is not among the sources); modelled as a
counter so that state changes are visible. -/
def StorageManager.Keep (s : StorageManager) : StorageManager :=
  { s with keepCount := s.keepCount + 1 }

/-- `storageManager.LoadTask`: `s.Keep()` followed by `s.tasks.Load(meta)`. -/
def StorageManager.LoadTask (s : StorageManager) (meta : PeerTaskMetadata) :
    Option Nat × StorageManager :=
  (alistFind s.tasks meta, s.Keep)

/-- `path.Join` on two cleaned components (the Go function also runs
`path.Clean`; the inputs built here introduce no dot segments and at most a
trailing slash from `path.Split`). -/
def goJoin (a b : String) : String :=
  if a = "" then b
  else if b = "" then a
  else if a.endsWith "/" then a ++ b
  else a ++ "/" ++ b

/-- Core of `path.Split` on character lists: split after the final slash. -/
def goSplitList : List Char → List Char × List Char
  | [] => ([], [])
  | c :: cs =>
    if cs.contains '/' then
      let p := goSplitList cs
      (c :: p.1, p.2)
    else if c = '/' then ([c], cs)
    else ([], c :: cs)

/-- `path.Split`: directory part (with trailing slash) and file part. -/
def goSplit (p : String) : String × String :=
  let r := goSplitList p.toList
  (String.mk r.1, String.mk r.2)

/-- Success flags for the file-system operations `CreateTask` performs, in
program order. -/
structure CreateFsOracle where
  mkdirOk : Bool
  openMetadataOk : Bool
  openDataOk : Bool
  statDestDirOk : Bool
  sameDevice : Bool
  hardLinkOk : Bool
  symlinkOk : Bool
deriving DecidableEq, Repr

/-- File-system effects emitted by `CreateTask` (only the ones the claims
talk about: data file creation and link creation). -/
inductive FsEffect
  | openData (path : String)
  | hardLink (oldname newname : String)
  | symlink (oldname newname : String)
deriving DecidableEq, Repr

/-- The `switch t.StoreStrategy` statement of `CreateTask`: create the data
file (Simple), or create the cache file next to the destination and hard or
symbol link it into the standard data path (Advance). -/
def createTaskStep (t : LocalTaskStore) (req : RegisterTaskRequest)
    (fs : CreateFsOracle) (data : String) :
    Except StorageErr LocalTaskStore × List FsEffect :=
  if t.StoreStrategy = SimpleLocalTaskStoreStrategy then
    let t := { t with DataFilePath := data }
    if ¬ fs.openDataOk then (Except.error (StorageErr.osError "open data"), [])
    else (Except.ok t, [FsEffect.openData t.DataFilePath])
  else if t.StoreStrategy = AdvanceLocalTaskStoreStrategy then
    let dir := (goSplit req.Destination).1
    let file := (goSplit req.Destination).2
    if ¬ fs.statDestDirOk then (Except.error (StorageErr.osError "stat"), [])
    else
      let cache := goJoin dir ("." ++ file ++ ".dfget.cache." ++ req.PeerID)
      let t := { t with DataFilePath := cache }
      if ¬ fs.openDataOk then (Except.error (StorageErr.osError "open data"), [])
      else if fs.sameDevice then
        -- same dev, can hard link; on failure fall back to symbol link
        if fs.hardLinkOk then
          (Except.ok t, [FsEffect.openData t.DataFilePath,
                         FsEffect.hardLink t.DataFilePath data])
        else if fs.symlinkOk then
          (Except.ok t, [FsEffect.openData t.DataFilePath,
                         FsEffect.hardLink t.DataFilePath data,
                         FsEffect.symlink t.DataFilePath data])
        else (Except.error (StorageErr.osError "symlink"),
              [FsEffect.openData t.DataFilePath,
               FsEffect.hardLink t.DataFilePath data,
               FsEffect.symlink t.DataFilePath data])
      else
        -- different devices, make symbol link for reload error gc
        if fs.symlinkOk then
          (Except.ok t, [FsEffect.openData t.DataFilePath,
                         FsEffect.symlink t.DataFilePath data])
        else (Except.error (StorageErr.osError "symlink"),
              [FsEffect.openData t.DataFilePath,
               FsEffect.symlink t.DataFilePath data])
  else (Except.ok t, [])

/-- The index append of `CreateTask` (and of reload): add the new store to
`indexTask2PeerTask[taskID]`. -/
def createTaskIndexAdd (idx : List (String × List Nat)) (taskID : String) (id : Nat) :
    List (String × List Nat) :=
  match alistFind idx taskID with
  | some ts => alistSet idx taskID (ts ++ [id])
  | none => alistSet idx taskID [id]

/-- The tail of `CreateTask`: store the finished `localTaskStore` in the
`tasks` map (`s.tasks.Store`) and append it to `indexTask2PeerTask`
(allocation of the fresh pointer is `alistSet` at `s.nextID`). -/
def createTaskPublish (s : StorageManager) (req : RegisterTaskRequest)
    (t : LocalTaskStore) : Nat × StorageManager :=
  (s.nextID,
    { s with
      heap := alistSet s.heap s.nextID t
      nextID := s.nextID + 1
      tasks := alistSet s.tasks { PeerID := req.PeerID, TaskID := req.TaskID } s.nextID
      indexTask2PeerTask := createTaskIndexAdd s.indexTask2PeerTask req.TaskID s.nextID })

/-- The `localTaskStore` literal `CreateTask` initialises, already touched
(`t.touch()` right after `MkdirAll`). -/
def createTaskStore (s : StorageManager) (req : RegisterTaskRequest) (now : Int) :
    LocalTaskStore :=
  ({ StoreStrategy := s.storeStrategy
     TaskID := req.TaskID
     PeerID := req.PeerID
     ContentLength := req.ContentLength
     TotalPieces := req.TotalPieces
     PieceMd5Sign := req.PieceMd5Sign
     Done := false
     invalid := false
     reclaimMarked := false
     lastAccess := 0
     expireTime := s.taskExpireTime
     dataDir := goJoin (goJoin s.dataPath req.TaskID) req.PeerID
     metadataFilePath := goJoin (goJoin (goJoin s.dataPath req.TaskID) req.PeerID) taskMetadata
     DataFilePath := ""
     reclaimed := false } : LocalTaskStore).touch now

/-- The Simple-strategy fallback for proxy requests: an empty
`req.Destination` forces `SimpleLocalTaskStoreStrategy`. -/
def createTaskStoreWithFallback (s : StorageManager) (req : RegisterTaskRequest)
    (now : Int) : LocalTaskStore :=
  if req.Destination = "" then
    { createTaskStore s req now with StoreStrategy := SimpleLocalTaskStoreStrategy }
  else createTaskStore s req now

/-- `storageManager.CreateTask`: build the store, create its directory and
files, fall back to the Simple strategy when `req.Destination` is empty,
then publish the store in the `tasks` map and the task index. -/
def StorageManager.CreateTask (s : StorageManager) (req : RegisterTaskRequest)
    (now : Int) (fs : CreateFsOracle) :
    Except StorageErr (Nat × StorageManager) × List FsEffect :=
  if ¬ fs.mkdirOk then (Except.error (StorageErr.osError "mkdir"), [])
  else if ¬ fs.openMetadataOk then (Except.error (StorageErr.osError "open metadata"), [])
  else
    match createTaskStep (createTaskStoreWithFallback s.Keep req now) req fs
        (goJoin (createTaskStore s.Keep req now).dataDir taskData) with
    | (Except.error e, eff) => (Except.error e, eff)
    | (Except.ok t, eff) => (Except.ok (createTaskPublish s.Keep req t), eff)

/-- `storageManager.RegisterTask`: return the existing store when present
(checked twice, as in the double-checked locking of the source), else
create a new one. -/
def StorageManager.RegisterTask (s : StorageManager) (req : RegisterTaskRequest)
    (now : Int) (fs : CreateFsOracle) :
    Except StorageErr (Nat × StorageManager) × List FsEffect :=
  match s.LoadTask { PeerID := req.PeerID, TaskID := req.TaskID } with
  | (some id, s') => (Except.ok (id, s'), [])
  | (none, s') =>
    match s'.LoadTask { PeerID := req.PeerID, TaskID := req.TaskID } with
    | (some id, s'') => (Except.ok (id, s''), [])
    | (none, s'') => s''.CreateTask req now fs

/-- `storageManager.WritePiece`: look the store up by `(TaskID, PeerID)`;
on a miss return `(0, ErrTaskNotFound)`, otherwise delegate to the store's
driver (local_storage.go, abstracted as the parameter `drv`). -/
def StorageManager.WritePiece (s : StorageManager) (reqTaskID reqPeerID : String)
    (drv : Nat → StorageManager → (Int × Option StorageErr) × StorageManager) :
    (Int × Option StorageErr) × StorageManager :=
  match s.LoadTask { PeerID := reqPeerID, TaskID := reqTaskID } with
  | (none, s') => ((0, some StorageErr.taskNotFound), s')
  | (some id, s') => drv id s'

/-- `storageManager.ReadPiece`: nil reader, nil closer and `ErrTaskNotFound`
on a miss (reader and closer handles are abstracted to `Option Unit`). -/
def StorageManager.ReadPiece (s : StorageManager) (reqTaskID reqPeerID : String)
    (drv : Nat → StorageManager → (Option Unit × Option Unit × Option StorageErr) × StorageManager) :
    (Option Unit × Option Unit × Option StorageErr) × StorageManager :=
  match s.LoadTask { PeerID := reqPeerID, TaskID := reqTaskID } with
  | (none, s') => ((none, none, some StorageErr.taskNotFound), s')
  | (some id, s') => drv id s'

/-- `storageManager.ReadAllPieces`: nil reader and `ErrTaskNotFound` on a miss. -/
def StorageManager.ReadAllPieces (s : StorageManager) (reqTaskID reqPeerID : String)
    (drv : Nat → StorageManager → (Option Unit × Option StorageErr) × StorageManager) :
    (Option Unit × Option StorageErr) × StorageManager :=
  match s.LoadTask { PeerID := reqPeerID, TaskID := reqTaskID } with
  | (none, s') => ((none, some StorageErr.taskNotFound), s')
  | (some id, s') => drv id s'

/-- `storageManager.Store`: `ErrTaskNotFound` on a miss. -/
def StorageManager.Store (s : StorageManager) (reqTaskID reqPeerID : String)
    (drv : Nat → StorageManager → Option StorageErr × StorageManager) :
    Option StorageErr × StorageManager :=
  match s.LoadTask { PeerID := reqPeerID, TaskID := reqTaskID } with
  | (none, s') => (some StorageErr.taskNotFound, s')
  | (some id, s') => drv id s'

/-- `storageManager.GetPieces`: keyed by `(req.TaskId, req.DstPid)`; nil
packet and `ErrTaskNotFound` on a miss (the `PiecePacket` is abstracted). -/
def StorageManager.GetPieces (s : StorageManager) (reqTaskId reqDstPid : String)
    (drv : Nat → StorageManager → (Option Unit × Option StorageErr) × StorageManager) :
    (Option Unit × Option StorageErr) × StorageManager :=
  match s.LoadTask { PeerID := reqDstPid, TaskID := reqTaskId } with
  | (none, s') => ((none, some StorageErr.taskNotFound), s')
  | (some id, s') => drv id s'

/-- `storageManager.UpdateTask`: `ErrTaskNotFound` on a miss. -/
def StorageManager.UpdateTask (s : StorageManager) (reqTaskID reqPeerID : String)
    (drv : Nat → StorageManager → Option StorageErr × StorageManager) :
    Option StorageErr × StorageManager :=
  match s.LoadTask { PeerID := reqPeerID, TaskID := reqTaskID } with
  | (none, s') => (some StorageErr.taskNotFound, s')
  | (some id, s') => drv id s'

/-- `storageManager.ValidateDigest`: `ErrTaskNotFound` on a miss. -/
def StorageManager.ValidateDigest (s : StorageManager) (reqTaskID reqPeerID : String)
    (drv : Nat → StorageManager → Option StorageErr × StorageManager) :
    Option StorageErr × StorageManager :=
  match s.LoadTask { PeerID := reqPeerID, TaskID := reqTaskID } with
  | (none, s') => (some StorageErr.taskNotFound, s')
  | (some id, s') => drv id s'

/-- `storageManager.IsInvalid`: `(false, ErrTaskNotFound)` on a miss. -/
def StorageManager.IsInvalid (s : StorageManager) (reqTaskID reqPeerID : String)
    (drv : Nat → StorageManager → (Bool × Option StorageErr) × StorageManager) :
    (Bool × Option StorageErr) × StorageManager :=
  match s.LoadTask { PeerID := reqPeerID, TaskID := reqTaskID } with
  | (none, s') => ((false, some StorageErr.taskNotFound), s')
  | (some id, s') => drv id s'

/-- Build the `ReusePeerTask` that `FindCompletedTask` returns (note the
task id comes from the argument, the peer id from the store). -/
def mkReuse (taskID : String) (t : LocalTaskStore) : ReusePeerTask :=
  { PeerID := t.PeerID, TaskID := taskID
    ContentLength := t.ContentLength, TotalPieces := t.TotalPieces }

/-- The `for _, t := range ts` loop of `storageManager.FindCompletedTask`:
skip invalid stores, touch the rest, skip reclaim-marked and not-Done
stores, return the first survivor. -/
def findCompletedLoop (taskID : String) (now : Int) :
    StorageManager → List Nat → Option ReusePeerTask × StorageManager
  | s, [] => (none, s)
  | s, id :: rest =>
    match s.heap.get id with
    | none => findCompletedLoop taskID now s rest
    | some t =>
      if t.invalid then findCompletedLoop taskID now s rest
      else
        -- touch it before marking reclaim
        let s' := { s with heap := s.heap.set id (t.touch now) }
        if t.reclaimMarked then findCompletedLoop taskID now s' rest
        else if ¬ t.Done then findCompletedLoop taskID now s' rest
        else (some (mkReuse taskID t), s')

/-- `storageManager.FindCompletedTask`. -/
def StorageManager.FindCompletedTask (s : StorageManager) (taskID : String) (now : Int) :
    Option ReusePeerTask × StorageManager :=
  match alistFind s.indexTask2PeerTask taskID with
  | none => (none, s)
  | some ts => findCompletedLoop taskID now s ts

/-- `storageManager.cleanIndex`: drop every indexed store whose `PeerID`
matches, keep the rest. -/
def StorageManager.cleanIndex (s : StorageManager) (taskID peerID : String) : StorageManager :=
  match alistFind s.indexTask2PeerTask taskID with
  | none => s
  | some ts =>
    let remain := ts.filter fun id =>
      match s.heap.get id with
      | some t => ¬ t.PeerID = peerID
      | none => true
    { s with indexTask2PeerTask := alistSet s.indexTask2PeerTask taskID remain }

/-- Result of `disk.Usage(path)` (gopsutil), as far as `diskUsageExceed`
reads it; `none` models the error case. -/
structure DiskUsage where
  usedPercent : ℚ
  total : ℚ
deriving DecidableEq, Repr

/-- `storageManager.diskUsageExceed`: no threshold or usage below it gives
`(false, 0)`; otherwise the exceeding byte count
`(UsedPercent - DiskGCThresholdPercent) * Total`, truncated to an integer. -/
def StorageManager.diskUsageExceed (s : StorageManager) (usage : Option DiskUsage) :
    Bool × Int :=
  if s.diskGCThresholdPercent ≤ 0 then (false, 0)
  else
    match usage with
    | none => (false, 0)
    | some u =>
      if u.usedPercent < s.diskGCThresholdPercent then (false, 0)
      else (true, ((u.usedPercent - s.diskGCThresholdPercent) * u.total).floor)

/-- Observable actions of the reclamation paths, in execution order:
deletions from the `tasks` map, deletions from the task index, file
deletion (`Reclaim`), and (never emitted by GC) insertions. -/
inductive GCEvent
  | mapDelete (key : PeerTaskMetadata)
  | indexDelete (key : PeerTaskMetadata)
  | reclaimFiles (key : PeerTaskMetadata)
  | mapInsert (key : PeerTaskMetadata)
  | indexInsert (key : PeerTaskMetadata)
deriving DecidableEq, Repr

/-- First marking phase of `TryGC` (the first `s.tasks.Range`): mark every
store with `CanReclaim`, collect the marked keys, and sum the content
length of the stores that stay. -/
def gcMarkExpired (now : Int) : StorageManager → List (PeerTaskMetadata × Nat) →
    StorageManager × (List PeerTaskMetadata × Int)
  | s, [] => (s, ([], 0))
  | s, (key, id) :: rest =>
    match s.heap.get id with
    | none => gcMarkExpired now s rest
    | some t =>
      if t.CanReclaim now then
        let s' := { s with heap := s.heap.set id t.MarkReclaim }
        let r := gcMarkExpired now s' rest
        (r.1, (key :: r.2.1, r.2.2))
      else
        let r := gcMarkExpired now s rest
        (r.1, (r.2.1, t.ContentLength + r.2.2))

/-- Candidate collection of the second `s.tasks.Range` of `TryGC`: skip
already-marked stores and not-Done stores that were active within
`gcInterval`. -/
def gcCandidates (s : StorageManager) (now : Int) : List (Nat × LocalTaskStore) :=
  s.tasks.filterMap fun p =>
    match s.heap.get p.2 with
    | none => none
    | some t =>
      if t.reclaimMarked then none
      else if ¬ t.Done ∧ now - t.lastAccess < s.gcInterval then none
      else some (p.2, t)

/-- Comparator of the `sort.SliceStable` call: ascending last-access
(`mergeSort` is stable, like `sort.SliceStable`). -/
def byLastAccess (a b : Nat × LocalTaskStore) : Bool :=
  a.2.lastAccess ≤ b.2.lastAccess

/-- The quota marking loop of `TryGC`: mark stores in order, subtract each
`ContentLength` from the remaining excess, stop once it is `≤ 0`. -/
def gcGreedy : StorageManager → List (Nat × LocalTaskStore) → Int →
    StorageManager × List PeerTaskMetadata
  | s, [], _ => (s, [])
  | s, (id, t) :: rest, bytesExceed =>
    let s' := { s with heap := s.heap.set id t.MarkReclaim }
    let key : PeerTaskMetadata := { PeerID := t.PeerID, TaskID := t.TaskID }
    if bytesExceed - t.ContentLength ≤ 0 then (s', [key])
    else
      let r := gcGreedy s' rest (bytesExceed - t.ContentLength)
      (r.1, key :: r.2)

/-- Remove the first entry matching on `TaskID` and `PeerID` (the
`for i, k := range markedTasks` removal inside the deletion pass). -/
def removeKeyOnce : List PeerTaskMetadata → PeerTaskMetadata → List PeerTaskMetadata
  | [], _ => []
  | k :: rest, key =>
    if k.TaskID = key.TaskID ∧ k.PeerID = key.PeerID then rest
    else k :: removeKeyOnce rest key

/-- One deletion of the `TryGC` pass: `s.tasks.Delete(key)`, then
`cleanIndex(task.TaskID, task.PeerID)`, then `task.Reclaim()` deletes the
files; the processed key is dropped from this cycle's marked list. -/
def gcDeleteStepState (s : StorageManager) (key : PeerTaskMetadata) (id : Nat)
    (task : LocalTaskStore) : StorageManager :=
  { ({ s with tasks := alistErase s.tasks key }).cleanIndex task.TaskID task.PeerID with
    heap := (({ s with tasks := alistErase s.tasks key }).cleanIndex
      task.TaskID task.PeerID).heap.set id task.Reclaim }

/-- Deletion pass over the previous cycle's marked set (see the doc comment
above `gcDeleteStepState` for one step). -/
def gcDeletePass : StorageManager → List PeerTaskMetadata → List PeerTaskMetadata →
    StorageManager × (List PeerTaskMetadata × List GCEvent)
  | s, marked, [] => (s, (marked, []))
  | s, marked, key :: rest =>
    match alistFind s.tasks key with
    | none => gcDeletePass s marked rest
    | some id =>
      match s.heap.get id with
      | none => gcDeletePass s marked rest
      | some task =>
        let r := gcDeletePass (gcDeleteStepState s key id task)
          (removeKeyOnce marked key) rest
        (r.1, (r.2.1,
          GCEvent.mapDelete key :: GCEvent.indexDelete key ::
          GCEvent.reclaimFiles key :: r.2.2))

/-- The quota step of `TryGC`: when the quota or the disk usage threshold
is exceeded, sort the unmarked candidates by last access and mark them
greedily until the exceeding bytes (the larger of the two excesses) are
covered.  `s1` is the state after the expiry marking phase; that phase only
touches the heap, so `s1.diskGCThreshold` is the configured threshold. -/
def quotaStep (s1 : StorageManager) (now : Int) (markedTasks : List PeerTaskMetadata)
    (totalNotMarkedSize : Int) (ue : Bool × Int) :
    StorageManager × List PeerTaskMetadata :=
  if (0 < s1.diskGCThreshold ∧ 0 < totalNotMarkedSize - s1.diskGCThreshold)
      ∨ ue.1 = true then
    ((gcGreedy s1 ((gcCandidates s1 now).mergeSort byLastAccess)
        (if ue.2 < totalNotMarkedSize - s1.diskGCThreshold
         then totalNotMarkedSize - s1.diskGCThreshold else ue.2)).1,
     markedTasks ++
       (gcGreedy s1 ((gcCandidates s1 now).mergeSort byLastAccess)
         (if ue.2 < totalNotMarkedSize - s1.diskGCThreshold
          then totalNotMarkedSize - s1.diskGCThreshold else ue.2)).2)
  else (s1, markedTasks)

/-- `storageManager.TryGC`: mark expired stores, mark more stores when the
disk quota or usage threshold is exceeded, then run the deletion pass over
the previous cycle's marked set and persist this cycle's marked set.
Returns the new state and the trace of reclamation events. -/
def StorageManager.TryGC (s : StorageManager) (now : Int) (usage : Option DiskUsage) :
    StorageManager × List GCEvent :=
  let m := gcMarkExpired now s s.tasks
  let afterQuota := quotaStep m.1 now m.2.1 m.2.2 (s.diskUsageExceed usage)
  let d := gcDeletePass afterQuota.1 afterQuota.2 s.markedReclaimTasks
  ({ d.1 with markedReclaimTasks := d.2.1 }, d.2.2)

/-- The `s.tasks.Range` body of `forceGC`: delete each key, clean the
index, mark and reclaim the store. -/
def forceGCLoop : StorageManager → List (PeerTaskMetadata × Nat) →
    StorageManager × List GCEvent
  | s, [] => (s, [])
  | s, (key, id) :: rest =>
    match s.heap.get id with
    | none => forceGCLoop s rest
    | some t =>
      let s1 := { s with tasks := alistErase s.tasks key }
      let s2 := s1.cleanIndex key.TaskID key.PeerID
      let s3 := { s2 with heap := s2.heap.set id t.MarkReclaim.Reclaim }
      let r := forceGCLoop s3 rest
      (r.1, GCEvent.mapDelete key :: GCEvent.indexDelete key ::
        GCEvent.reclaimFiles key :: r.2)

/-- `storageManager.forceGC` (the body of `CleanUp`): reclaim every store
unconditionally. -/
def StorageManager.forceGC (s : StorageManager) : StorageManager × List GCEvent :=
  forceGCLoop s s.tasks

/-- Persistent metadata as read back by `ReloadPersistentTask`
(`json.Unmarshal(bytes, &t.persistentMetadata)`); fields per the spec's
TaskStore description (the metadata source file is not included). -/
structure PersistentMeta where
  StoreStrategy : String
  TaskID : String
  PeerID : String
  ContentLength : Int
  TotalPieces : Int
  PieceMd5Sign : String
  Done : Bool
deriving DecidableEq, Repr

/-- Outcome of opening and parsing a metadata file during reload. -/
inductive MetaState
  | unopenable
  | unparseable
  | parseOk (pm : PersistentMeta)
deriving DecidableEq, Repr

/-- On-disk state of a `data` entry: whether it exists and, when it is a
symbolic link, its destination. -/
structure DataState where
  present : Bool
  symlinkDest : Option String
deriving DecidableEq, Repr

/-- One `<TaskID>/<PeerID>` directory under the data root. -/
structure DiskPeerDir where
  peerID : String
  meta : MetaState
  data : DataState
deriving DecidableEq, Repr

/-- One `<TaskID>` directory under the data root (`readable` models the
`os.ReadDir(taskDir)` error branch). -/
structure DiskTaskDir where
  taskID : String
  readable : Bool
  peers : List DiskPeerDir
deriving DecidableEq, Repr

/-- Register one successfully parsed store during reload: put it in the
`tasks` map (keyed by the directory names) and append it to the task
index, with `lastAccess` freshly touched. -/
def registerReloaded (now : Int) (s : StorageManager) (taskID peerID : String)
    (pm : PersistentMeta) : StorageManager :=
  let dataDir := goJoin (goJoin s.dataPath taskID) peerID
  let t : LocalTaskStore := {
    StoreStrategy := pm.StoreStrategy
    TaskID := pm.TaskID
    PeerID := pm.PeerID
    ContentLength := pm.ContentLength
    TotalPieces := pm.TotalPieces
    PieceMd5Sign := pm.PieceMd5Sign
    Done := pm.Done
    invalid := false
    reclaimMarked := false
    lastAccess := now
    expireTime := s.taskExpireTime
    dataDir := dataDir
    metadataFilePath := goJoin dataDir taskMetadata
    DataFilePath := ""
    reclaimed := false }
  let key : PeerTaskMetadata := { PeerID := peerID, TaskID := taskID }
  let idx := match alistFind s.indexTask2PeerTask taskID with
    | some ts => alistSet s.indexTask2PeerTask taskID (ts ++ [s.nextID])
    | none => alistSet s.indexTask2PeerTask taskID [s.nextID]
  { s with
    heap := alistSet s.heap s.nextID t
    nextID := s.nextID + 1
    tasks := alistSet s.tasks key s.nextID
    indexTask2PeerTask := idx }

/-- The inner `for _, peerDir := range peerDirs` loop of reload: register
parseable stores, collect the peer ids whose metadata could not be opened,
read or parsed. -/
def reloadPeers (now : Int) (taskID : String) : StorageManager → List DiskPeerDir →
    StorageManager × List String
  | s, [] => (s, [])
  | s, p :: rest =>
    match p.meta with
    | MetaState.unopenable =>
      let r := reloadPeers now taskID s rest
      (r.1, p.peerID :: r.2)
    | MetaState.unparseable =>
      let r := reloadPeers now taskID s rest
      (r.1, p.peerID :: r.2)
    | MetaState.parseOk pm =>
      reloadPeers now taskID (registerReloaded now s taskID p.peerID pm) rest

/-- The outer `for _, dir := range dirs` loop of reload: skip unreadable
task directories, remove empty ones (except dot paths), and scan the peer
directories of the rest.  Returns the state, the accumulated
`(taskID, peerID)` load-error list, and the surviving task directories. -/
def reloadScan (now : Int) : StorageManager → List DiskTaskDir →
    StorageManager × (List (String × String) × List DiskTaskDir)
  | s, [] => (s, ([], []))
  | s, td :: rest =>
    if ¬ td.readable then
      let r := reloadScan now s rest
      (r.1, (r.2.1, td :: r.2.2))
    else if td.peers.isEmpty then
      if (goJoin s.dataPath td.taskID).startsWith "." then
        let r := reloadScan now s rest
        (r.1, (r.2.1, td :: r.2.2))
      else
        -- remove empty task dir
        reloadScan now s rest
    else
      let pr := reloadPeers now td.taskID s td.peers
      let r := reloadScan now pr.1 rest
      (r.1, ((pr.2.map fun pid => (td.taskID, pid)) ++ r.2.1, td :: r.2.2))

/-- The `for _, dir := range loadErrDirs` removal loop: drop every failed
peer directory (its metadata file, data file and the directory itself). -/
def reloadRemoveErrs (errs : List (String × String)) (root : List DiskTaskDir) :
    List DiskTaskDir :=
  root.map fun td =>
    { td with peers := td.peers.filter fun p => ¬ (td.taskID, p.peerID) ∈ errs }

/-- Destinations collected from the `data` symbolic links of the failed
peer directories of one task directory (`os.Readlink` on an existing
`data` entry followed by `os.Remove(dest)`). -/
def symlinkCollect (errs : List (String × String)) (tid : String) :
    List DiskPeerDir → List String → List String
  | [], acc => acc
  | p :: rest, acc =>
    let acc2 := symlinkCollect errs tid rest acc
    if (tid, p.peerID) ∈ errs ∧ p.data.present then
      match p.data.symlinkDest with
      | some d => d :: acc2
      | none => acc2
    else acc2

/-- Destination files removed through symbolic links while removing the
failed peer directories (`os.Readlink` followed by `os.Remove(dest)`). -/
def symlinkDests (errs : List (String × String)) (root : List DiskTaskDir) :
    List String :=
  root.foldr (fun td acc => symlinkCollect errs td.taskID td.peers acc) []

/-- `storageManager.ReloadPersistentTask`: scan the data root, register
every parseable store, remove every load-error directory (and linked
destination data).  Returns the new state, the data root afterwards, the
removed symlink destinations, and whether a load error is reported. -/
def StorageManager.ReloadPersistentTask (s : StorageManager)
    (root : Option (List DiskTaskDir)) (now : Int) :
    StorageManager × (Option (List DiskTaskDir) × List String × Bool) :=
  match root with
  | none => (s, (none, [], false))
  | some dirs =>
    let sc := reloadScan now s dirs
    let errs := sc.2.1
    let root1 := sc.2.2
    (sc.1, (some (reloadRemoveErrs errs root1), symlinkDests errs root1, ¬ errs.isEmpty))

/-! File peer task (`client/daemon/peer/peertask_file.go`).  The conductor
(`peertask_conductor.go`) is not among the sources: the fields `fileTask`
reads from it are bundled below, and its channels are modelled as a list of
events consumed by `syncProgress`. -/
/-- Modelled from the spec: `base.Code_Success` (the base.proto codes are
not among the sources; only distinctness matters). -/
def CodeSuccess : Int := 200

/-- Modelled from the spec: the peer-local code `ClientError`. -/
def CodeClientError : Int := 4000

/-- The conductor fields read by `fileTask` (`GetTaskID`, `GetPeerID`,
`GetContentLength`, `completedLength.Load()`, `failedCode`,
`failedReason`). -/
structure PeerTaskConductor where
  taskID : String
  peerID : String
  contentLength : Int
  completedLength : Int
  failedCode : Int
  failedReason : String
deriving DecidableEq, Repr

/-- `ProgressState` of a file task progress event. -/
structure ProgressState where
  Success : Bool
  Code : Int
  Msg : String
deriving DecidableEq, Repr

/-- `FileTaskProgress` (the `DoneCallback` closure is not modelled). -/
structure FileTaskProgress where
  State : ProgressState
  TaskID : String
  PeerID : String
  ContentLength : Int
  CompletedLength : Int
  PeerTaskDone : Bool
deriving DecidableEq, Repr

/-- One firing of the channels `syncProgress` selects over. -/
inductive ConductorEvent
  | succ
  | fail
  | ctxDone
  | piece (finished : Bool)
deriving DecidableEq, Repr

/-- The non-terminal progress event built in the `piece` branch of
`syncProgress`. -/
def mkPieceProgress (c : PeerTaskConductor) : FileTaskProgress :=
  { State := { Success := true, Code := CodeSuccess, Msg := "downloading" }
    TaskID := c.taskID, PeerID := c.peerID
    ContentLength := c.contentLength, CompletedLength := c.completedLength
    PeerTaskDone := false }

/-- The terminal event built by `fileTask.sendFailProgress`. -/
def mkFailProgress (c : PeerTaskConductor) (code : Int) (msg : String) : FileTaskProgress :=
  { State := { Success := false, Code := code, Msg := msg }
    TaskID := c.taskID, PeerID := c.peerID
    ContentLength := c.contentLength, CompletedLength := c.completedLength
    PeerTaskDone := true }

/-- The terminal event built by `fileTask.sendSuccessProgress`. -/
def mkSuccessProgress (c : PeerTaskConductor) : FileTaskProgress :=
  { State := { Success := true, Code := CodeSuccess, Msg := "done" }
    TaskID := c.taskID, PeerID := c.peerID
    ContentLength := c.contentLength, CompletedLength := c.completedLength
    PeerTaskDone := true }

/-- `fileTask.storeToOutput`: store the finished task to the output path
(`storeErr` is the outcome of `storageManager.Store`), then send the
matching terminal event. -/
def storeToOutput (c : PeerTaskConductor) (storeErr : Option String) : FileTaskProgress :=
  match storeErr with
  | some msg => mkFailProgress c CodeClientError msg
  | none => mkSuccessProgress c

/-- `fileTask.syncProgress` as a function from the sequence of channel
firings to the sequence of progress events sent on `progressCh` (channel
sends are modelled as always delivered). -/
def syncProgress (c : PeerTaskConductor) (storeErr : Option String) :
    List ConductorEvent → List FileTaskProgress
  | [] => []
  | ConductorEvent.succ :: _ => [storeToOutput c storeErr]
  | ConductorEvent.fail :: _ => [mkFailProgress c c.failedCode c.failedReason]
  | ConductorEvent.ctxDone :: rest => syncProgress c storeErr rest
  | ConductorEvent.piece finished :: rest =>
    if finished then syncProgress c storeErr rest
    else mkPieceProgress c :: syncProgress c storeErr rest

/-- `UrlMeta`, reduced to the only field `newFileTask` reads. -/
structure UrlMeta where
  Range : String
deriving DecidableEq, Repr

/-- `FileTaskRequest` (the embedded `PeerTaskRequest` reduced to the fields
`newFileTask` reads). -/
structure FileTaskRequest where
  Url : String
  UrlMeta : UrlMeta
  PeerID : String
  Output : String
  DisableBackSource : Bool
  Pattern : String
  Callsystem : String
deriving DecidableEq, Repr

/-- The `fileTask` value `newFileTask` builds (logger, span, context and
channels omitted). -/
structure FileTask where
  conductor : PeerTaskConductor
  request : FileTaskRequest
  disableBackSource : Bool
  pattern : String
  callsystem : String
deriving DecidableEq, Repr

/-- A Go `error` value. -/
inductive GoError
  | err (msg : String)
deriving DecidableEq, Repr

/-- `peerTaskManager.newFileTask`: get or create the conductor (outcome the
parameter `conductorResult`, the conductor code being outside the sources);
on failure return the error; on success possibly spawn the prefetch
(`go ptm.prefetch(...)`, reported in the second component) and build the
`fileTask`.  The prefetch goroutine's outcome is not part of the return
value. -/
def newFileTask (enablePrefetch : Bool)
    (conductorResult : Except GoError PeerTaskConductor)
    (request : FileTaskRequest) :
    Except GoError FileTask × Bool :=
  match conductorResult with
  | Except.error e => (Except.error e, false)
  | Except.ok ptc =>
    let spawned := enablePrefetch && !(request.UrlMeta.Range == "")
    (Except.ok {
      conductor := ptc
      request := request
      disableBackSource := request.DisableBackSource
      pattern := request.Pattern
      callsystem := request.Callsystem }, spawned)

/-! Sample values used by witnesses and counterexamples. -/
/-- A conductor with a recorded failure, for witnesses. -/
def sampleConductor : PeerTaskConductor :=
  { taskID := "task-1", peerID := "peer-1", contentLength := 100
    completedLength := 40, failedCode := 4000, failedReason := "scheduler failed" }

/-- A ranged file task request, for witnesses. -/
def sampleRequest : FileTaskRequest :=
  { Url := "http://example.com/blob", UrlMeta := { Range := "0-99" }
    PeerID := "peer-1", Output := "/tmp/out", DisableBackSource := false
    Pattern := "p2p", Callsystem := "" }

/-- Whether a peer directory's metadata failed to be opened, read or parsed
during reload (membership in `loadErrs`/`loadErrDirs`). -/
def metaFailed (p : DiskPeerDir) : Bool :=
  match p.meta with
  | MetaState.parseOk _ => false
  | _ => true

/-- Parsed persistent metadata used by the reload examples. -/
def c6pm : PersistentMeta :=
  { StoreStrategy := SimpleLocalTaskStoreStrategy, TaskID := "task-6"
    PeerID := "peer-6", ContentLength := 10, TotalPieces := 1
    PieceMd5Sign := "", Done := true }

/-- A data root with one parseable peer directory whose data file is
missing on disk. -/
def c6Root : List DiskTaskDir :=
  [{ taskID := "task-6", readable := true
     peers := [{ peerID := "peer-6", meta := MetaState.parseOk c6pm
                 data := { present := false, symlinkDest := none } }] }]

/-- A data root with one parseable peer directory and one unparseable peer
directory whose data file is a symbolic link. -/
def c6wRoot : List DiskTaskDir :=
  [{ taskID := "task-6", readable := true
     peers :=
      [{ peerID := "peer-a", meta := MetaState.parseOk c6pm
         data := { present := true, symlinkDest := none } },
       { peerID := "peer-b", meta := MetaState.unparseable
         data := { present := true, symlinkDest := some "/out/file.bin" } }] }]

/-- An empty storage manager, for witnesses. -/
def emptyManager : StorageManager :=
  { heap := [], nextID := 0, tasks := [], indexTask2PeerTask := []
    markedReclaimTasks := [], storeStrategy := SimpleLocalTaskStoreStrategy
    dataPath := "/var/lib/dragonfly", taskExpireTime := 1000
    diskGCThreshold := 0, diskGCThresholdPercent := 0, gcInterval := 60
    keepCount := 0 }

/-- A register request with empty destination (Simple fallback), for witnesses. -/
def sampleRegisterReq : RegisterTaskRequest :=
  { PeerID := "peer-1", TaskID := "task-1", Destination := ""
    ContentLength := 10, TotalPieces := 1, PieceMd5Sign := "" }

/-- A register request with a destination, for witnesses. -/
def sampleRegisterReqDest : RegisterTaskRequest :=
  { PeerID := "peer-1", TaskID := "task-1", Destination := "/home/u/out.bin"
    ContentLength := 10, TotalPieces := 1, PieceMd5Sign := "" }

/-- A file-system oracle where everything succeeds. -/
def allOkFs : CreateFsOracle :=
  { mkdirOk := true, openMetadataOk := true, openDataOk := true
    statDestDirOk := true, sameDevice := true, hardLinkOk := true, symlinkOk := true }

/-- The manager state after a first successful `RegisterTask` on the empty
manager, for the idempotence witness. -/
def afterFirstRegister : StorageManager :=
  (((emptyManager.RegisterTask sampleRegisterReq 5 allOkFs).1.toOption.map Prod.snd).getD
    emptyManager)

/-! Claim C10. -/
/-- The Advance-strategy cache file path
`dirname(Destination)/.basename.dfget.cache.PeerID`. -/
def advCachePath (req : RegisterTaskRequest) : String :=
  goJoin (goSplit req.Destination).1
    ("." ++ (goSplit req.Destination).2 ++ ".dfget.cache." ++ req.PeerID)

/-! Claim C4. -/
/-- The reuse condition of `FindCompletedTask`: non-invalid, not
reclaim-marked, and Done. -/
def findPred (t : LocalTaskStore) : Bool :=
  !t.invalid && !t.reclaimMarked && t.Done

/-- The stores an index list points at, in order, against a fixed heap
(dangling identifiers skipped). -/
def walkStores (h : Heap) (ids : List Nat) : List (Nat × LocalTaskStore) :=
  ids.filterMap fun i => (Heap.get h i).map fun t => (i, t)

/-- A template store for concrete example states. -/
def baseStore : LocalTaskStore :=
  { StoreStrategy := SimpleLocalTaskStoreStrategy, TaskID := "task-4", PeerID := "peer-0"
    ContentLength := 100, TotalPieces := 1, PieceMd5Sign := "", Done := true
    invalid := false, reclaimMarked := false, lastAccess := 0, expireTime := 1000
    dataDir := "", metadataFilePath := "", DataFilePath := "", reclaimed := false }

/-- Example manager for the C4 witness: store 0 is reclaim-marked, store 1
is Done and clean. -/
def c4Manager : StorageManager :=
  { emptyManager with
    heap := [(0, { baseStore with reclaimMarked := true }),
             (1, { baseStore with PeerID := "peer-1" })]
    nextID := 2
    tasks := [({ PeerID := "peer-0", TaskID := "task-4" }, 0),
              ({ PeerID := "peer-1", TaskID := "task-4" }, 1)]
    indexTask2PeerTask := [("task-4", [0, 1])] }

/-! Claim C2. -/
/-- Well-formed reclamation traces: for each reclaimed key, first the
deletion from the `tasks` map, then the removal from the task index, then
the file deletion — and nothing else (in particular no insertions). -/
inductive ReclaimBlocks : List GCEvent → Prop
  | nil : ReclaimBlocks []
  | block (k : PeerTaskMetadata) (rest : List GCEvent) :
      ReclaimBlocks rest →
      ReclaimBlocks (GCEvent.mapDelete k :: GCEvent.indexDelete k ::
        GCEvent.reclaimFiles k :: rest)

/-- A key and manager with one pending reclaim-marked store, for the GC
witnesses. -/
def gKey : PeerTaskMetadata := { PeerID := "peer-g", TaskID := "task-g" }

/-- Manager whose single store was marked in the previous pass. -/
def gcManager : StorageManager :=
  { emptyManager with
    heap := [(0, { baseStore with
      TaskID := "task-g", PeerID := "peer-g", reclaimMarked := true
      lastAccess := 100, expireTime := 1000000 })]
    nextID := 1
    tasks := [(gKey, 0)]
    indexTask2PeerTask := [("task-g", [0])]
    markedReclaimTasks := [gKey] }

/-! Claim C1. -/
/-- A key and manager with one fresh (never marked) store, for the C1
witness. -/
def c1SafeKey : PeerTaskMetadata := { PeerID := "peer-s", TaskID := "task-s" }

/-- A manager holding one recently touched store with no pending marks. -/
def c1SafeManager : StorageManager :=
  { emptyManager with
    heap := [(0, { baseStore with
                   TaskID := "task-s", PeerID := "peer-s",
                   lastAccess := 100, expireTime := 1000000 })]
    nextID := 1
    tasks := [(c1SafeKey, 0)]
    indexTask2PeerTask := [("task-s", [0])] }

/-! Claim C5. -/
/-- Total content length of a candidate list. -/
def sumCL (l : List (Nat × LocalTaskStore)) : Int :=
  (l.map fun p => p.2.ContentLength).sum

/-- The `PeerTaskMetadata` key the quota loop records for a marked store
(positional literal: PeerID first). -/
def toKey (p : Nat × LocalTaskStore) : PeerTaskMetadata :=
  { PeerID := p.2.PeerID, TaskID := p.2.TaskID }

/-- Manager with one Done, recently touched 5-byte store; thresholds off. -/
def c5Manager : StorageManager :=
  { emptyManager with
    heap := [(0, { baseStore with
                   TaskID := "task-5", PeerID := "peer-5",
                   lastAccess := 100, expireTime := 1000000, ContentLength := 5 })]
    nextID := 1
    tasks := [({ PeerID := "peer-5", TaskID := "task-5" }, 0)]
    indexTask2PeerTask := [("task-5", [0])] }

/-- The same manager with a 3-byte quota configured, for the witness. -/
def c5TrigManager : StorageManager :=
  { c5Manager with diskGCThreshold := 3 }

/-! Association list and heap lemmas. -/
theorem alistFind_alistSet_self {α β : Type} [DecidableEq α]
    (m : List (α × β)) (k : α) (v : β) :
    alistFind (alistSet m k v) k = some v := by
  induction m with
  | nil => simp [alistSet, alistFind]
  | cons p rest ih =>
    obtain ⟨k', v'⟩ := p
    by_cases h : k' = k
    · simp [alistSet, alistFind, h]
    · simp [alistSet, alistFind, h, ih]

theorem alistFind_alistSet_ne {α β : Type} [DecidableEq α]
    (m : List (α × β)) (k k' : α) (v : β) (h : k' ≠ k) :
    alistFind (alistSet m k v) k' = alistFind m k' := by
  have h2 : ¬ k = k' := fun he => h he.symm
  induction m with
  | nil => simp [alistSet, alistFind, h2]
  | cons p rest ih =>
    obtain ⟨k'', v''⟩ := p
    by_cases h3 : k'' = k
    · subst h3
      simp [alistSet, alistFind, h2]
    · by_cases h4 : k'' = k'
      · simp [alistSet, alistFind, h3, h4, h]
      · simp [alistSet, alistFind, h3, h4, ih]

theorem alistFind_alistErase_self {α β : Type} [DecidableEq α]
    (m : List (α × β)) (k : α) :
    alistFind (alistErase m k) k = none := by
  induction m with
  | nil => simp [alistErase, alistFind]
  | cons p rest ih =>
    obtain ⟨k', v'⟩ := p
    by_cases h : k' = k
    · simpa [alistErase, h] using ih
    · simpa [alistErase, alistFind, h] using ih

theorem alistFind_alistErase_ne {α β : Type} [DecidableEq α]
    (m : List (α × β)) (k k' : α) (h : k' ≠ k) :
    alistFind (alistErase m k) k' = alistFind m k' := by
  induction m with
  | nil => simp [alistErase]
  | cons p rest ih =>
    obtain ⟨k'', v''⟩ := p
    by_cases h2 : k'' = k
    · subst h2
      have h3 : ¬ k'' = k' := fun he => h he.symm
      simp [alistErase, alistFind, h3, ih]
    · by_cases h3 : k'' = k'
      · simp [alistErase, alistFind, h2, h3, h]
      · simp [alistErase, alistFind, h2, h3, ih]

theorem Heap.get_set_self (h : Heap) (i : Nat) (t : LocalTaskStore) :
    Heap.get (Heap.set h i t) i = (Heap.get h i).map fun _ => t := by
  induction h with
  | nil => simp [Heap.set, Heap.get]
  | cons p rest ih =>
    obtain ⟨j, u⟩ := p
    by_cases hj : j = i
    · simp [Heap.set, Heap.get, hj]
    · simp [Heap.set, Heap.get, hj, ih]

theorem Heap.get_set_ne (h : Heap) (i j : Nat) (t : LocalTaskStore) (hne : j ≠ i) :
    Heap.get (Heap.set h i t) j = Heap.get h j := by
  induction h with
  | nil => simp [Heap.set, Heap.get]
  | cons p rest ih =>
    obtain ⟨j', u⟩ := p
    by_cases hj : j' = i
    · subst hj
      have h2 : ¬ j' = j := fun he => hne he.symm
      simp [Heap.set, Heap.get, h2, ih]
    · by_cases hj2 : j' = j
      · simp [Heap.set, Heap.get, hj, hj2, hne]
      · simp [Heap.set, Heap.get, hj, hj2, ih]

theorem cleanIndex_preserves (s : StorageManager) (a b : String) :
    (s.cleanIndex a b).tasks = s.tasks ∧ (s.cleanIndex a b).heap = s.heap ∧
    (s.cleanIndex a b).markedReclaimTasks = s.markedReclaimTasks := by
  unfold StorageManager.cleanIndex
  rcases alistFind s.indexTask2PeerTask a with _ | ts <;> simp

theorem Heap.get_alistSet_self (h : Heap) (i : Nat) (t : LocalTaskStore) :
    Heap.get (alistSet h i t) i = some t := by
  induction h with
  | nil => simp [alistSet, Heap.get]
  | cons p rest ih =>
    obtain ⟨j, u⟩ := p
    by_cases hj : j = i
    · simp [alistSet, Heap.get, hj]
    · simp [alistSet, Heap.get, hj, ih]

theorem Heap.get_alistSet_ne (h : Heap) (i j : Nat) (t : LocalTaskStore) (hne : j ≠ i) :
    Heap.get (alistSet h i t) j = Heap.get h j := by
  have hij : ¬ i = j := fun he => hne he.symm
  induction h with
  | nil => simp [alistSet, Heap.get, hij]
  | cons p rest ih =>
    obtain ⟨j', u⟩ := p
    by_cases hj : j' = i
    · subst hj
      simp [alistSet, Heap.get, hij]
    · by_cases hj2 : j' = j
      · simp [alistSet, Heap.get, hj, hj2, hne]
      · simp [alistSet, Heap.get, hj, hj2, ih]

/-! Claim C7. -/
/-- C7: when the conductor's fail channel fires after any run of piece and
context events (no prior success or failure), `syncProgress` emits exactly
one terminal progress event — it is the last one, carries
`PeerTaskDone = true`, `Success = false`, the conductor's failed code and
its failure message — and every earlier event is non-terminal. -/
theorem syncProgress_fail_terminal (c : PeerTaskConductor) (storeErr : Option String)
    (pre post : List ConductorEvent)
    (hs : ConductorEvent.succ ∉ pre) (hf : ConductorEvent.fail ∉ pre) :
    ∃ out, syncProgress c storeErr (pre ++ ConductorEvent.fail :: post) =
        out ++ [mkFailProgress c c.failedCode c.failedReason]
      ∧ (∀ p ∈ out, p.PeerTaskDone = false)
      ∧ (mkFailProgress c c.failedCode c.failedReason).PeerTaskDone = true
      ∧ (mkFailProgress c c.failedCode c.failedReason).State =
          { Success := false, Code := c.failedCode, Msg := c.failedReason } := by
  induction pre with
  | nil =>
    refine ⟨[], by simp [syncProgress], by simp, rfl, rfl⟩
  | cons e rest ih =>
    have hs' : ConductorEvent.succ ∉ rest := fun h => hs (List.mem_cons_of_mem _ h)
    have hf' : ConductorEvent.fail ∉ rest := fun h => hf (List.mem_cons_of_mem _ h)
    obtain ⟨out, hout, hnd, hdone, hstate⟩ := ih hs' hf'
    cases e with
    | succ => exact absurd (List.mem_cons_self _ _) hs
    | fail => exact absurd (List.mem_cons_self _ _) hf
    | ctxDone =>
      exact ⟨out, by simpa [syncProgress] using hout, hnd, hdone, hstate⟩
    | piece fin =>
      cases fin with
      | true => exact ⟨out, by simpa [syncProgress] using hout, hnd, hdone, hstate⟩
      | false =>
        refine ⟨mkPieceProgress c :: out, by simpa [syncProgress] using hout, ?_, hdone, hstate⟩
        intro p hp
        rcases List.mem_cons.mp hp with h | h
        · subst h; rfl
        · exact hnd p h

/-- Witness for C7 at a concrete event schedule. -/
theorem syncProgress_fail_terminal_witness :
    ∃ out, syncProgress sampleConductor none
        ([ConductorEvent.piece false, ConductorEvent.ctxDone] ++
          ConductorEvent.fail :: [ConductorEvent.piece false]) =
        out ++ [mkFailProgress sampleConductor sampleConductor.failedCode
          sampleConductor.failedReason]
      ∧ (∀ p ∈ out, p.PeerTaskDone = false)
      ∧ (mkFailProgress sampleConductor sampleConductor.failedCode
          sampleConductor.failedReason).PeerTaskDone = true
      ∧ (mkFailProgress sampleConductor sampleConductor.failedCode
          sampleConductor.failedReason).State =
          { Success := false, Code := sampleConductor.failedCode
            Msg := sampleConductor.failedReason } :=
  syncProgress_fail_terminal sampleConductor none
    [ConductorEvent.piece false, ConductorEvent.ctxDone] [ConductorEvent.piece false]
    (by decide) (by decide)

/-! Claim C8. -/
/-- C8 (amended): when conductor creation succeeds, `newFileTask` spawns
the prefetch iff the prefetch flag is enabled and the request's range is
non-empty; when conductor creation fails, no prefetch is spawned and the
error alone is returned; the returned conductor/task/error value does not
depend on the prefetch flag (nor, in this model, on any outcome of the
prefetch, which contributes nothing to the return value). -/
theorem newFileTask_prefetch (enablePrefetch : Bool)
    (cr : Except GoError PeerTaskConductor) (req : FileTaskRequest) :
    (∀ ptc, cr = Except.ok ptc →
       ((newFileTask enablePrefetch cr req).2 = true ↔
         (enablePrefetch = true ∧ req.UrlMeta.Range ≠ "")))
    ∧ (∀ e, cr = Except.error e →
        newFileTask enablePrefetch cr req = (Except.error e, false))
    ∧ (∀ b : Bool, (newFileTask enablePrefetch cr req).1 = (newFileTask b cr req).1) := by
  refine ⟨?_, ?_, ?_⟩
  · rintro ptc rfl
    simp [newFileTask]
  · rintro e rfl
    rfl
  · intro b
    cases cr <;> rfl

/-- Witness for C8's amended theorem at concrete inputs. -/
theorem newFileTask_prefetch_witness :
    ((newFileTask true (Except.ok sampleConductor) sampleRequest).2 = true ↔
      (true = true ∧ sampleRequest.UrlMeta.Range ≠ "")) ∧
    newFileTask true (Except.error (GoError.err "register failed")) sampleRequest =
      (Except.error (GoError.err "register failed"), false) :=
  ⟨(newFileTask_prefetch true (Except.ok sampleConductor) sampleRequest).1
      sampleConductor rfl,
   (newFileTask_prefetch true (Except.error (GoError.err "register failed"))
      sampleRequest).2.1 (GoError.err "register failed") rfl⟩

/-- C8 counterexample: prefetch enabled and the request carries a range,
yet a failed conductor creation spawns no prefetch — the unconditional
"if and only if" of the claim fails on the error path. -/
theorem newFileTask_prefetch_counterexample :
    (newFileTask true (Except.error (GoError.err "register failed")) sampleRequest).2 = false
    ∧ true = true ∧ sampleRequest.UrlMeta.Range ≠ "" := by
  refine ⟨rfl, rfl, by decide⟩

/-! Claim C9. -/
/-- C9: every (TaskID, PeerID)-addressed storage-manager operation —
WritePiece, ReadPiece, ReadAllPieces, Store, GetPieces, UpdateTask,
ValidateDigest, IsInvalid — returns `ErrTaskNotFound` together with
zero/nil/false results when no store is registered under the key, for any
behaviour of the underlying store driver, and leaves the tasks map, the
task index and the store heap unchanged (only the KeepAlive mark moves). -/
theorem manager_ops_task_not_found (s : StorageManager) (taskID peerID : String)
    (h : alistFind s.tasks { PeerID := peerID, TaskID := taskID } = none)
    (drv1 : Nat → StorageManager → (Int × Option StorageErr) × StorageManager)
    (drv2 : Nat → StorageManager → (Option Unit × Option Unit × Option StorageErr) × StorageManager)
    (drv3 : Nat → StorageManager → (Option Unit × Option StorageErr) × StorageManager)
    (drv4 : Nat → StorageManager → Option StorageErr × StorageManager)
    (drv5 : Nat → StorageManager → (Option Unit × Option StorageErr) × StorageManager)
    (drv6 : Nat → StorageManager → Option StorageErr × StorageManager)
    (drv7 : Nat → StorageManager → Option StorageErr × StorageManager)
    (drv8 : Nat → StorageManager → (Bool × Option StorageErr) × StorageManager) :
    s.WritePiece taskID peerID drv1 = ((0, some StorageErr.taskNotFound), s.Keep)
    ∧ s.ReadPiece taskID peerID drv2 = ((none, none, some StorageErr.taskNotFound), s.Keep)
    ∧ s.ReadAllPieces taskID peerID drv3 = ((none, some StorageErr.taskNotFound), s.Keep)
    ∧ s.Store taskID peerID drv4 = (some StorageErr.taskNotFound, s.Keep)
    ∧ s.GetPieces taskID peerID drv5 = ((none, some StorageErr.taskNotFound), s.Keep)
    ∧ s.UpdateTask taskID peerID drv6 = (some StorageErr.taskNotFound, s.Keep)
    ∧ s.ValidateDigest taskID peerID drv7 = (some StorageErr.taskNotFound, s.Keep)
    ∧ s.IsInvalid taskID peerID drv8 = ((false, some StorageErr.taskNotFound), s.Keep)
    ∧ (s.Keep).tasks = s.tasks
    ∧ (s.Keep).indexTask2PeerTask = s.indexTask2PeerTask
    ∧ (s.Keep).heap = s.heap := by
  refine ⟨?_, ?_, ?_, ?_, ?_, ?_, ?_, ?_, rfl, rfl, rfl⟩ <;>
    simp [StorageManager.WritePiece, StorageManager.ReadPiece,
      StorageManager.ReadAllPieces, StorageManager.Store,
      StorageManager.GetPieces, StorageManager.UpdateTask,
      StorageManager.ValidateDigest, StorageManager.IsInvalid,
      StorageManager.LoadTask, h]

/-- Witness for C9 on the empty manager. -/
theorem manager_ops_task_not_found_witness :
    emptyManager.WritePiece "task-1" "peer-1" (fun _ m => ((7, none), m)) =
      ((0, some StorageErr.taskNotFound), emptyManager.Keep) :=
  (manager_ops_task_not_found emptyManager "task-1" "peer-1" rfl
    (fun _ m => ((7, none), m)) (fun _ m => ((some (), some (), none), m))
    (fun _ m => ((some (), none), m)) (fun _ m => (none, m))
    (fun _ m => ((some (), none), m)) (fun _ m => (none, m))
    (fun _ m => (none, m)) (fun _ m => ((true, none), m))).1

/-! Claim C3. -/
theorem createTaskStep_ok (t : LocalTaskStore) (req : RegisterTaskRequest)
    (fs : CreateFsOracle) (data : String) (t' : LocalTaskStore)
    (h : (createTaskStep t req fs data).1 = Except.ok t') :
    t'.TaskID = t.TaskID ∧ t'.PeerID = t.PeerID := by
  unfold createTaskStep at h
  by_cases h1 : t.StoreStrategy = SimpleLocalTaskStoreStrategy
  · rw [if_pos h1] at h
    by_cases h2 : fs.openDataOk <;> simp [h2] at h
    subst h
    exact ⟨rfl, rfl⟩
  · rw [if_neg h1] at h
    by_cases h2 : t.StoreStrategy = AdvanceLocalTaskStoreStrategy
    · rw [if_pos h2] at h
      by_cases h3 : fs.statDestDirOk <;> simp [h3] at h
      by_cases h4 : fs.openDataOk <;> simp [h4] at h
      cases hsd : fs.sameDevice <;>
        cases hhl : fs.hardLinkOk <;>
          cases hsl : fs.symlinkOk <;>
            simp [hsd, hhl, hsl] at h <;>
              (subst h; exact ⟨rfl, rfl⟩)
    · rw [if_neg h2] at h
      simp at h
      subst h
      exact ⟨rfl, rfl⟩

theorem createTaskStoreWithFallback_ids (s : StorageManager)
    (req : RegisterTaskRequest) (now : Int) :
    (createTaskStoreWithFallback s req now).TaskID = req.TaskID ∧
    (createTaskStoreWithFallback s req now).PeerID = req.PeerID := by
  unfold createTaskStoreWithFallback createTaskStore
  split <;> exact ⟨rfl, rfl⟩

theorem createTaskIndexAdd_find (idx : List (String × List Nat))
    (taskID : String) (id : Nat) :
    ∃ l, alistFind (createTaskIndexAdd idx taskID id) taskID = some (l ++ [id]) := by
  unfold createTaskIndexAdd
  rcases hix : alistFind idx taskID with _ | ts
  · exact ⟨[], by simp [hix, alistFind_alistSet_self]⟩
  · exact ⟨ts, by simp [hix, alistFind_alistSet_self]⟩

theorem CreateTask_ok (s : StorageManager) (req : RegisterTaskRequest) (now : Int)
    (fs : CreateFsOracle) (id : Nat) (s' : StorageManager)
    (h : (s.CreateTask req now fs).1 = Except.ok (id, s')) :
    id = s.nextID
    ∧ s'.nextID = s.nextID + 1
    ∧ s'.tasks = alistSet s.tasks { PeerID := req.PeerID, TaskID := req.TaskID } s.nextID
    ∧ (∃ t, s'.heap = alistSet s.heap s.nextID t
        ∧ t.TaskID = req.TaskID ∧ t.PeerID = req.PeerID)
    ∧ (∃ l, alistFind s'.indexTask2PeerTask req.TaskID = some (l ++ [s.nextID])) := by
  unfold StorageManager.CreateTask at h
  by_cases h1 : fs.mkdirOk
  swap
  · simp [h1] at h
  by_cases h2 : fs.openMetadataOk
  swap
  · simp [h1, h2] at h
  rw [if_neg (by simp [h1])] at h
  rw [if_neg (by simp [h2])] at h
  split at h
  · exact absurd h (by simp)
  · rename_i t eff heq
    simp only [Except.ok.injEq] at h
    have hfields := createTaskStep_ok _ req fs _ t (by rw [heq])
    have hwf := createTaskStoreWithFallback_ids s.Keep req now
    have hid : (createTaskPublish s.Keep req t).1 = id := by rw [h]
    have hs2 : (createTaskPublish s.Keep req t).2 = s' := by rw [h]
    refine ⟨hid ▸ rfl, ?_, ?_, ⟨t, ?_, hfields.1.trans hwf.1, hfields.2.trans hwf.2⟩, ?_⟩
    · rw [← hs2]; rfl
    · rw [← hs2]; rfl
    · rw [← hs2]; rfl
    · rw [← hs2]
      exact createTaskIndexAdd_find s.indexTask2PeerTask req.TaskID s.nextID

theorem RegisterTask_ok_find (s : StorageManager) (req : RegisterTaskRequest)
    (now : Int) (fs : CreateFsOracle) (id : Nat) (s' : StorageManager)
    (h : (s.RegisterTask req now fs).1 = Except.ok (id, s')) :
    alistFind s'.tasks { PeerID := req.PeerID, TaskID := req.TaskID } = some id := by
  rcases hfind : alistFind s.tasks { PeerID := req.PeerID, TaskID := req.TaskID } with _ | id0
  · have hct : ((s.Keep.Keep).CreateTask req now fs).1 = Except.ok (id, s') := by
      unfold StorageManager.RegisterTask StorageManager.LoadTask at h
      simpa [hfind, StorageManager.Keep] using h
    obtain ⟨hid, _, htasks, _, _⟩ := CreateTask_ok (s.Keep.Keep) req now fs id s' hct
    rw [htasks, hid]
    exact alistFind_alistSet_self _ _ _
  · have hreg : s.RegisterTask req now fs = (Except.ok (id0, s.Keep), []) := by
      unfold StorageManager.RegisterTask StorageManager.LoadTask
      simp [hfind]
    rw [hreg] at h
    simp only [Except.ok.injEq, Prod.mk.injEq] at h
    obtain ⟨rfl, rfl⟩ := h
    exact hfind

/-- C3: `RegisterTask` is idempotent.  With a store already registered
under the (TaskID, PeerID) key it returns that store and creates nothing
(the state is unchanged but for the KeepAlive mark); when the key is
absent, a successful call creates, registers and indexes exactly one new
store; and a repeated call with identical arguments returns the same store
identifier as the first call. -/
theorem RegisterTask_idempotent (s : StorageManager) (req : RegisterTaskRequest)
    (now now2 : Int) (fs fs2 : CreateFsOracle) :
    (∀ id, alistFind s.tasks { PeerID := req.PeerID, TaskID := req.TaskID } = some id →
       s.RegisterTask req now fs = (Except.ok (id, s.Keep), [])
       ∧ (s.Keep).tasks = s.tasks ∧ (s.Keep).heap = s.heap
       ∧ (s.Keep).indexTask2PeerTask = s.indexTask2PeerTask
       ∧ (s.Keep).nextID = s.nextID)
    ∧ (∀ id s', (s.RegisterTask req now fs).1 = Except.ok (id, s') →
        alistFind s'.tasks { PeerID := req.PeerID, TaskID := req.TaskID } = some id
        ∧ (alistFind s.tasks { PeerID := req.PeerID, TaskID := req.TaskID } = none →
            id = s.nextID
            ∧ s'.tasks =
                alistSet s.tasks { PeerID := req.PeerID, TaskID := req.TaskID } s.nextID
            ∧ s'.nextID = s.nextID + 1
            ∧ (∃ t, s'.heap = alistSet s.heap s.nextID t
                ∧ t.TaskID = req.TaskID ∧ t.PeerID = req.PeerID)
            ∧ (∃ l, alistFind s'.indexTask2PeerTask req.TaskID = some (l ++ [s.nextID]))))
    ∧ (∀ id s', (s.RegisterTask req now fs).1 = Except.ok (id, s') →
        (s'.RegisterTask req now2 fs2).1 = Except.ok (id, s'.Keep)) := by
  refine ⟨?_, ?_, ?_⟩
  · intro id hid
    refine ⟨?_, rfl, rfl, rfl, rfl⟩
    unfold StorageManager.RegisterTask StorageManager.LoadTask
    simp [hid]
  · intro id s' h
    refine ⟨RegisterTask_ok_find s req now fs id s' h, ?_⟩
    intro hnone
    have hct : ((s.Keep.Keep).CreateTask req now fs).1 = Except.ok (id, s') := by
      unfold StorageManager.RegisterTask StorageManager.LoadTask at h
      simpa [hnone, StorageManager.Keep] using h
    obtain ⟨hid, hnext, htasks, ⟨t, hheap, ht1, ht2⟩, ⟨l, hidx⟩⟩ :=
      CreateTask_ok (s.Keep.Keep) req now fs id s' hct
    exact ⟨hid, htasks, hnext, ⟨t, hheap, ht1, ht2⟩, ⟨l, hidx⟩⟩
  · intro id s' h
    have hf := RegisterTask_ok_find s req now fs id s' h
    unfold StorageManager.RegisterTask StorageManager.LoadTask
    simp [hf]

/-- Witness for C3: a second identical `RegisterTask` after a first
successful one returns the same store identifier. -/
theorem RegisterTask_idempotent_witness :
    (afterFirstRegister.RegisterTask sampleRegisterReq 9 allOkFs).1 =
      Except.ok (0, afterFirstRegister.Keep) :=
  (RegisterTask_idempotent emptyManager sampleRegisterReq 5 9 allOkFs allOkFs).2.2 0
    afterFirstRegister (by rfl)

theorem createTaskStep_advance (t : LocalTaskStore) (req : RegisterTaskRequest)
    (fs : CreateFsOracle) (data : String)
    (hadv : t.StoreStrategy = AdvanceLocalTaskStoreStrategy)
    (hstat : fs.statDestDirOk = true) (hod : fs.openDataOk = true) :
    (FsEffect.hardLink (advCachePath req) data ∈ (createTaskStep t req fs data).2 ∨
     FsEffect.symlink (advCachePath req) data ∈ (createTaskStep t req fs data).2)
    ∧ ∀ t', (createTaskStep t req fs data).1 = Except.ok t' →
        t' = { t with DataFilePath := advCachePath req } := by
  unfold createTaskStep
  rw [if_neg (by rw [hadv]; decide), if_pos hadv,
    if_neg (by simp [hstat]), if_neg (by simp [hod])]
  cases hsd : fs.sameDevice <;> cases hhl : fs.hardLinkOk <;> cases hsl : fs.symlinkOk <;>
    constructor <;> simp [advCachePath]

/-- C10: an empty `Destination` forces the Simple store strategy — the data
file sits at `dataRoot/TaskID/PeerID/data` and no link is created — even
when the manager is configured with the Advance strategy; the Advance cache
path and hard/symbol link creation are used only for a non-empty
`Destination`. -/
theorem CreateTask_empty_destination_simple (s : StorageManager)
    (req : RegisterTaskRequest) (now : Int) (fs : CreateFsOracle)
    (h1 : fs.mkdirOk = true) (h2 : fs.openMetadataOk = true) (h3 : fs.openDataOk = true) :
    (req.Destination = "" →
      ∃ s' t, s.CreateTask req now fs =
          (Except.ok (s.nextID, s'), [FsEffect.openData t.DataFilePath])
        ∧ Heap.get s'.heap s.nextID = some t
        ∧ t.StoreStrategy = SimpleLocalTaskStoreStrategy
        ∧ t.DataFilePath = goJoin (goJoin (goJoin s.dataPath req.TaskID) req.PeerID) taskData
        ∧ ∀ o n, FsEffect.hardLink o n ∉ (s.CreateTask req now fs).2
            ∧ FsEffect.symlink o n ∉ (s.CreateTask req now fs).2)
    ∧ (req.Destination ≠ "" → s.storeStrategy = AdvanceLocalTaskStoreStrategy →
        fs.statDestDirOk = true →
        (FsEffect.hardLink (advCachePath req)
            (goJoin (goJoin (goJoin s.dataPath req.TaskID) req.PeerID) taskData) ∈
              (s.CreateTask req now fs).2
          ∨ FsEffect.symlink (advCachePath req)
              (goJoin (goJoin (goJoin s.dataPath req.TaskID) req.PeerID) taskData) ∈
                (s.CreateTask req now fs).2)
        ∧ ∀ id s', (s.CreateTask req now fs).1 = Except.ok (id, s') →
            ∃ t, Heap.get s'.heap id = some t
              ∧ t.DataFilePath = advCachePath req
              ∧ t.StoreStrategy = AdvanceLocalTaskStoreStrategy) := by
  constructor
  · intro hdest
    have hT : (createTaskStoreWithFallback s.Keep req now).StoreStrategy =
        SimpleLocalTaskStoreStrategy := by
      unfold createTaskStoreWithFallback
      rw [if_pos hdest]
    have hstep : createTaskStep (createTaskStoreWithFallback s.Keep req now) req fs
        (goJoin (createTaskStore s.Keep req now).dataDir taskData) =
        (Except.ok { createTaskStoreWithFallback s.Keep req now with
            DataFilePath := goJoin (createTaskStore s.Keep req now).dataDir taskData },
          [FsEffect.openData (goJoin (createTaskStore s.Keep req now).dataDir taskData)]) := by
      unfold createTaskStep
      rw [if_pos hT, if_neg (by simp [h3])]
    have hct : s.CreateTask req now fs =
        (Except.ok (createTaskPublish s.Keep req
            { createTaskStoreWithFallback s.Keep req now with
              DataFilePath := goJoin (createTaskStore s.Keep req now).dataDir taskData }),
          [FsEffect.openData (goJoin (createTaskStore s.Keep req now).dataDir taskData)]) := by
      unfold StorageManager.CreateTask
      rw [if_neg (by simp [h1]), if_neg (by simp [h2]), hstep]
    refine ⟨(createTaskPublish s.Keep req
        { createTaskStoreWithFallback s.Keep req now with
          DataFilePath := goJoin (createTaskStore s.Keep req now).dataDir taskData }).2,
      { createTaskStoreWithFallback s.Keep req now with
        DataFilePath := goJoin (createTaskStore s.Keep req now).dataDir taskData },
      ?_, ?_, hT, rfl, ?_⟩
    · rw [hct]; rfl
    · exact Heap.get_alistSet_self _ _ _
    · intro o n
      rw [hct]
      simp
  · intro hdest hadv hstat
    have hT1 : (createTaskStoreWithFallback s.Keep req now).StoreStrategy =
        AdvanceLocalTaskStoreStrategy := by
      unfold createTaskStoreWithFallback
      rw [if_neg hdest]
      exact hadv
    have hstep := createTaskStep_advance (createTaskStoreWithFallback s.Keep req now) req fs
      (goJoin (createTaskStore s.Keep req now).dataDir taskData) hT1 hstat h3
    have hred : s.CreateTask req now fs =
        match createTaskStep (createTaskStoreWithFallback s.Keep req now) req fs
            (goJoin (createTaskStore s.Keep req now).dataDir taskData) with
        | (Except.error e, eff) => (Except.error e, eff)
        | (Except.ok t, eff) => (Except.ok (createTaskPublish s.Keep req t), eff) := by
      unfold StorageManager.CreateTask
      rw [if_neg (by simp [h1]), if_neg (by simp [h2])]
    constructor
    · rw [hred]
      rcases hsv : createTaskStep (createTaskStoreWithFallback s.Keep req now) req fs
          (goJoin (createTaskStore s.Keep req now).dataDir taskData) with ⟨res, eff⟩
      rw [hsv] at hstep
      cases res <;> simpa using hstep.1
    · intro id s' h
      rw [hred] at h
      rcases hsv : createTaskStep (createTaskStoreWithFallback s.Keep req now) req fs
          (goJoin (createTaskStore s.Keep req now).dataDir taskData) with ⟨res, eff⟩
      rw [hsv] at h hstep
      cases res with
      | error e => simp at h
      | ok t =>
        simp only [Except.ok.injEq] at h
        have ht := hstep.2 t rfl
        have hs2 : (createTaskPublish s.Keep req t).2 = s' := by rw [h]
        have hid : (createTaskPublish s.Keep req t).1 = id := by rw [h]
        refine ⟨t, ?_, ?_, ?_⟩
        · rw [← hs2, ← hid]
          exact Heap.get_alistSet_self _ _ _
        · rw [ht]
        · rw [ht]
          exact hT1

/-- Witness for C10 at concrete inputs: both an empty-destination call on
an Advance-configured manager and a destination-carrying call. -/
theorem CreateTask_empty_destination_simple_witness :
    (∃ s' t, { emptyManager with storeStrategy := AdvanceLocalTaskStoreStrategy }.CreateTask
          sampleRegisterReq 5 allOkFs =
        (Except.ok (0, s'), [FsEffect.openData t.DataFilePath])
      ∧ Heap.get s'.heap 0 = some t
      ∧ t.StoreStrategy = SimpleLocalTaskStoreStrategy
      ∧ t.DataFilePath = goJoin (goJoin (goJoin "/var/lib/dragonfly" "task-1") "peer-1") taskData
      ∧ ∀ o n, FsEffect.hardLink o n ∉
            ({ emptyManager with storeStrategy := AdvanceLocalTaskStoreStrategy }.CreateTask
              sampleRegisterReq 5 allOkFs).2
          ∧ FsEffect.symlink o n ∉
            ({ emptyManager with storeStrategy := AdvanceLocalTaskStoreStrategy }.CreateTask
              sampleRegisterReq 5 allOkFs).2) :=
  (CreateTask_empty_destination_simple
      { emptyManager with storeStrategy := AdvanceLocalTaskStoreStrategy }
      sampleRegisterReq 5 allOkFs rfl rfl rfl).1 rfl

theorem walkStores_congr (h h' : Heap) (ids : List Nat)
    (hagree : ∀ j ∈ ids, Heap.get h' j = Heap.get h j) :
    walkStores h' ids = walkStores h ids := by
  induction ids with
  | nil => rfl
  | cons i rest ih =>
    have h1 : Heap.get h' i = Heap.get h i := hagree i (List.mem_cons_self i rest)
    have h2 : ∀ j ∈ rest, Heap.get h' j = Heap.get h j :=
      fun j hj => hagree j (List.mem_cons_of_mem _ hj)
    simp only [walkStores, List.filterMap_cons] at ih ⊢
    rw [h1, ih h2]

theorem findCompletedLoop_cons (taskID : String) (now : Int) (s : StorageManager)
    (id : Nat) (rest : List Nat) :
    findCompletedLoop taskID now s (id :: rest) =
      match Heap.get s.heap id with
      | none => findCompletedLoop taskID now s rest
      | some t =>
        if t.invalid then findCompletedLoop taskID now s rest
        else
          if t.reclaimMarked then
            findCompletedLoop taskID now { s with heap := s.heap.set id (t.touch now) } rest
          else if ¬ t.Done then
            findCompletedLoop taskID now { s with heap := s.heap.set id (t.touch now) } rest
          else (some (mkReuse taskID t), { s with heap := s.heap.set id (t.touch now) }) :=
  rfl

theorem findCompletedLoop_spec (taskID : String) (now : Int) :
    ∀ (ids : List Nat), ids.Nodup → ∀ (s : StorageManager),
      (findCompletedLoop taskID now s ids).1 =
        ((walkStores s.heap ids).find? fun p => findPred p.2).map
          (fun p => mkReuse taskID p.2)
      ∧ ∀ i t, ((walkStores s.heap ids).find? fun p => findPred p.2) = some (i, t) →
          Heap.get (findCompletedLoop taskID now s ids).2.heap i =
            some (t.touch now) := by
  intro ids
  induction ids with
  | nil =>
    intro _ s
    exact ⟨rfl, by intro i t h; simp [walkStores] at h⟩
  | cons id rest ih =>
    intro hnd s
    have hnotin : id ∉ rest := (List.nodup_cons.mp hnd).1
    have hnd' : rest.Nodup := (List.nodup_cons.mp hnd).2
    rcases hget : Heap.get s.heap id with _ | t
    · have hloop : findCompletedLoop taskID now s (id :: rest) =
          findCompletedLoop taskID now s rest := by
        rw [findCompletedLoop_cons, hget]
      have hw : walkStores s.heap (id :: rest) = walkStores s.heap rest := by
        simp [walkStores, List.filterMap_cons, hget]
      rw [hloop, hw]
      exact ih hnd' s
    · have hwcons : walkStores s.heap (id :: rest) =
          (id, t) :: walkStores s.heap rest := by
        simp [walkStores, List.filterMap_cons, hget]
      have hagree : ∀ j ∈ rest,
          Heap.get (Heap.set s.heap id (t.touch now)) j = Heap.get s.heap j :=
        fun j hj => Heap.get_set_ne s.heap id j _ (fun he => hnotin (he ▸ hj))
      have hw2 : walkStores (Heap.set s.heap id (t.touch now)) rest =
          walkStores s.heap rest :=
        walkStores_congr _ _ rest hagree
      rcases htinv : t.invalid with _ | _
      · rcases hmark : t.reclaimMarked with _ | _
        · rcases hdone : t.Done with _ | _
          · -- skipped: not Done
            have hloop : findCompletedLoop taskID now s (id :: rest) =
                findCompletedLoop taskID now
                  { s with heap := s.heap.set id (t.touch now) } rest := by
              rw [findCompletedLoop_cons, hget]
              simp [htinv, hmark, hdone]
            have hpred : findPred t = false := by simp [findPred, htinv, hmark, hdone]
            rw [hloop, hwcons]
            rw [show ((id, t) :: walkStores s.heap rest).find? (fun p => findPred p.2) =
                (walkStores s.heap rest).find? (fun p => findPred p.2) from by
              simp [List.find?, hpred]]
            rw [← hw2]
            exact ih hnd' _
          · -- returned
            have hloop : findCompletedLoop taskID now s (id :: rest) =
                (some (mkReuse taskID t),
                  { s with heap := s.heap.set id (t.touch now) }) := by
              rw [findCompletedLoop_cons, hget]
              simp [htinv, hmark, hdone]
            have hpred : findPred t = true := by simp [findPred, htinv, hmark, hdone]
            have hfind : ((id, t) :: walkStores s.heap rest).find?
                (fun p => findPred p.2) = some (id, t) := by
              simp [List.find?, hpred]
            rw [hloop, hwcons, hfind]
            constructor
            · rfl
            · intro i t' h
              simp only [Option.some.injEq, Prod.mk.injEq] at h
              obtain ⟨rfl, rfl⟩ := h
              rw [Heap.get_set_self, hget]
              rfl
        · -- skipped: reclaim-marked (still touched)
          have hloop : findCompletedLoop taskID now s (id :: rest) =
              findCompletedLoop taskID now
                { s with heap := s.heap.set id (t.touch now) } rest := by
            rw [findCompletedLoop_cons, hget]
            simp [htinv, hmark]
          have hpred : findPred t = false := by simp [findPred, htinv, hmark]
          rw [hloop, hwcons]
          rw [show ((id, t) :: walkStores s.heap rest).find? (fun p => findPred p.2) =
              (walkStores s.heap rest).find? (fun p => findPred p.2) from by
            simp [List.find?, hpred]]
          rw [← hw2]
          exact ih hnd' _
      · -- skipped: invalid (not touched)
        have hloop : findCompletedLoop taskID now s (id :: rest) =
            findCompletedLoop taskID now s rest := by
          rw [findCompletedLoop_cons, hget]
          simp [htinv]
        have hpred : findPred t = false := by simp [findPred, htinv]
        rw [hloop, hwcons]
        rw [show ((id, t) :: walkStores s.heap rest).find? (fun p => findPred p.2) =
            (walkStores s.heap rest).find? (fun p => findPred p.2) from by
          simp [List.find?, hpred]]
        exact ih hnd' s

/-- C4: for an unindexed task id `FindCompletedTask` returns nil and
changes nothing; for an indexed one it returns the `ReusePeerTask` built
from the first store of the index list that is non-invalid, not
reclaim-marked and Done (nil when no store qualifies), and it updates that
store's last-access time to now. -/
theorem FindCompletedTask_spec (s : StorageManager) (taskID : String) (now : Int) :
    (alistFind s.indexTask2PeerTask taskID = none →
      s.FindCompletedTask taskID now = (none, s))
    ∧ ∀ ids, alistFind s.indexTask2PeerTask taskID = some ids → ids.Nodup →
        ((s.FindCompletedTask taskID now).1 =
            ((walkStores s.heap ids).find? fun p => findPred p.2).map
              (fun p => mkReuse taskID p.2)
          ∧ ∀ i t, ((walkStores s.heap ids).find? fun p => findPred p.2) = some (i, t) →
              Heap.get (s.FindCompletedTask taskID now).2.heap i = some (t.touch now)) := by
  constructor
  · intro h
    unfold StorageManager.FindCompletedTask
    rw [h]
  · intro ids hix hnd
    unfold StorageManager.FindCompletedTask
    rw [hix]
    exact findCompletedLoop_spec taskID now ids hnd s

/-- Witness for C4: the first Done, unmarked store (store 1) is returned
and touched. -/
theorem FindCompletedTask_spec_witness :
    (c4Manager.FindCompletedTask "task-4" 99).1 =
        ((walkStores c4Manager.heap [0, 1]).find? fun p => findPred p.2).map
          (fun p => mkReuse "task-4" p.2)
      ∧ ∀ i t, ((walkStores c4Manager.heap [0, 1]).find? fun p => findPred p.2) =
            some (i, t) →
          Heap.get (c4Manager.FindCompletedTask "task-4" 99).2.heap i =
            some (t.touch 99) :=
  (FindCompletedTask_spec c4Manager "task-4" 99).2 [0, 1] rfl (by decide)

theorem gcDeletePass_cons (s : StorageManager) (marked : List PeerTaskMetadata)
    (key : PeerTaskMetadata) (rest : List PeerTaskMetadata) :
    gcDeletePass s marked (key :: rest) =
      match alistFind s.tasks key with
      | none => gcDeletePass s marked rest
      | some id =>
        match Heap.get s.heap id with
        | none => gcDeletePass s marked rest
        | some task =>
          ((gcDeletePass (gcDeleteStepState s key id task)
              (removeKeyOnce marked key) rest).1,
           ((gcDeletePass (gcDeleteStepState s key id task)
              (removeKeyOnce marked key) rest).2.1,
            GCEvent.mapDelete key :: GCEvent.indexDelete key ::
            GCEvent.reclaimFiles key ::
            (gcDeletePass (gcDeleteStepState s key id task)
              (removeKeyOnce marked key) rest).2.2)) :=
  rfl

theorem forceGCLoop_cons (s : StorageManager) (key : PeerTaskMetadata) (id : Nat)
    (rest : List (PeerTaskMetadata × Nat)) :
    forceGCLoop s ((key, id) :: rest) =
      match Heap.get s.heap id with
      | none => forceGCLoop s rest
      | some t =>
        ((forceGCLoop
            { ({ s with tasks := alistErase s.tasks key }).cleanIndex
                key.TaskID key.PeerID with
              heap := (({ s with tasks := alistErase s.tasks key }).cleanIndex
                key.TaskID key.PeerID).heap.set id t.MarkReclaim.Reclaim } rest).1,
         GCEvent.mapDelete key :: GCEvent.indexDelete key ::
         GCEvent.reclaimFiles key ::
         (forceGCLoop
            { ({ s with tasks := alistErase s.tasks key }).cleanIndex
                key.TaskID key.PeerID with
              heap := (({ s with tasks := alistErase s.tasks key }).cleanIndex
                key.TaskID key.PeerID).heap.set id t.MarkReclaim.Reclaim } rest).2) :=
  rfl

theorem gcDeletePass_blocks :
    ∀ (keys : List PeerTaskMetadata) (s : StorageManager)
      (marked : List PeerTaskMetadata),
      ReclaimBlocks (gcDeletePass s marked keys).2.2 := by
  intro keys
  induction keys with
  | nil => intro s marked; exact ReclaimBlocks.nil
  | cons key rest ih =>
    intro s marked
    rw [gcDeletePass_cons]
    split
    · exact ih s marked
    · split
      · exact ih s marked
      · exact ReclaimBlocks.block key _ (ih _ _)

theorem forceGCLoop_blocks :
    ∀ (l : List (PeerTaskMetadata × Nat)) (s : StorageManager),
      ReclaimBlocks (forceGCLoop s l).2 := by
  intro l
  induction l with
  | nil => intro s; exact ReclaimBlocks.nil
  | cons p rest ih =>
    intro s
    obtain ⟨key, id⟩ := p
    rw [forceGCLoop_cons]
    split
    · exact ih s
    · exact ReclaimBlocks.block key _ (ih _)

theorem ReclaimBlocks.no_insert {tr : List GCEvent} (h : ReclaimBlocks tr)
    (k : PeerTaskMetadata) :
    GCEvent.mapInsert k ∉ tr ∧ GCEvent.indexInsert k ∉ tr := by
  induction h with
  | nil => simp
  | block k' rest hr ih =>
    constructor <;> simp [List.mem_cons, ih.1, ih.2]

theorem ReclaimBlocks.delete_before_reclaim {tr : List GCEvent}
    (h : ReclaimBlocks tr) :
    ∀ (k : PeerTaskMetadata) (pre post : List GCEvent),
      tr = pre ++ GCEvent.reclaimFiles k :: post →
      GCEvent.mapDelete k ∈ pre ∧ GCEvent.indexDelete k ∈ pre := by
  induction h with
  | nil =>
    intro k pre post heq
    exact absurd heq (by simp)
  | block a rest hr ih =>
    intro k pre post heq
    rcases pre with _ | ⟨x, _ | ⟨y, _ | ⟨z, pre2⟩⟩⟩
    · simp at heq
    · simp at heq
    · simp only [List.cons_append, List.nil_append, List.cons.injEq] at heq
      obtain ⟨hx, hy, hz, _⟩ := heq
      have hak : a = k := by
        injection hz with h
      subst hak
      exact ⟨by rw [← hx]; exact List.mem_cons_self _ _,
             by rw [← hy]; exact List.mem_cons_of_mem _ (List.mem_cons_self _ _)⟩
    · simp only [List.cons_append, List.cons.injEq] at heq
      obtain ⟨hx, hy, hz, hrest⟩ := heq
      obtain ⟨h1, h2⟩ := ih k pre2 post hrest
      constructor
      · exact List.mem_cons_of_mem _ (List.mem_cons_of_mem _ (List.mem_cons_of_mem _ h1))
      · exact List.mem_cons_of_mem _ (List.mem_cons_of_mem _ (List.mem_cons_of_mem _ h2))

theorem TryGC_trace_blocks (s : StorageManager) (now : Int)
    (usage : Option DiskUsage) : ReclaimBlocks (s.TryGC now usage).2 :=
  gcDeletePass_blocks s.markedReclaimTasks _ _

theorem forceGC_trace_blocks (s : StorageManager) :
    ReclaimBlocks s.forceGC.2 :=
  forceGCLoop_blocks s.tasks s

/-- C2: in both reclamation paths — the `TryGC` deletion pass over the
previous pass's marked set, and `forceGC` — a reclaimed store's key is
deleted from the `tasks` map and removed from the task index before its
files are deleted, and the trace contains no insertion of a reclaimed key
(in particular none after its reclamation). -/
theorem reclaim_deletes_before_files (s : StorageManager) (now : Int)
    (usage : Option DiskUsage) :
    (∀ k pre post, (s.TryGC now usage).2 = pre ++ GCEvent.reclaimFiles k :: post →
        (GCEvent.mapDelete k ∈ pre ∧ GCEvent.indexDelete k ∈ pre)
        ∧ GCEvent.mapInsert k ∉ (s.TryGC now usage).2
        ∧ GCEvent.indexInsert k ∉ (s.TryGC now usage).2)
    ∧ (∀ k pre post, s.forceGC.2 = pre ++ GCEvent.reclaimFiles k :: post →
        (GCEvent.mapDelete k ∈ pre ∧ GCEvent.indexDelete k ∈ pre)
        ∧ GCEvent.mapInsert k ∉ s.forceGC.2
        ∧ GCEvent.indexInsert k ∉ s.forceGC.2) := by
  constructor
  · intro k pre post heq
    exact ⟨(TryGC_trace_blocks s now usage).delete_before_reclaim k pre post heq,
      (TryGC_trace_blocks s now usage).no_insert k⟩
  · intro k pre post heq
    exact ⟨(forceGC_trace_blocks s).delete_before_reclaim k pre post heq,
      (forceGC_trace_blocks s).no_insert k⟩

/-- Witness for C2 on a concrete pass that reclaims one store. -/
theorem reclaim_deletes_before_files_witness :
    (GCEvent.mapDelete gKey ∈ [GCEvent.mapDelete gKey, GCEvent.indexDelete gKey]
      ∧ GCEvent.indexDelete gKey ∈ [GCEvent.mapDelete gKey, GCEvent.indexDelete gKey])
    ∧ GCEvent.mapInsert gKey ∉ (gcManager.TryGC 100 none).2
    ∧ GCEvent.indexInsert gKey ∉ (gcManager.TryGC 100 none).2 :=
  (reclaim_deletes_before_files gcManager 100 none).1 gKey
    [GCEvent.mapDelete gKey, GCEvent.indexDelete gKey] [] (by decide)

theorem gcMarkExpired_cons (now : Int) (s : StorageManager) (key : PeerTaskMetadata)
    (id : Nat) (rest : List (PeerTaskMetadata × Nat)) :
    gcMarkExpired now s ((key, id) :: rest) =
      match Heap.get s.heap id with
      | none => gcMarkExpired now s rest
      | some t =>
        if t.CanReclaim now then
          ((gcMarkExpired now { s with heap := s.heap.set id t.MarkReclaim } rest).1,
           (key :: (gcMarkExpired now
              { s with heap := s.heap.set id t.MarkReclaim } rest).2.1,
            (gcMarkExpired now
              { s with heap := s.heap.set id t.MarkReclaim } rest).2.2))
        else
          ((gcMarkExpired now s rest).1,
           ((gcMarkExpired now s rest).2.1,
            t.ContentLength + (gcMarkExpired now s rest).2.2)) :=
  rfl

theorem gcGreedy_cons (s : StorageManager) (id : Nat) (t : LocalTaskStore)
    (rest : List (Nat × LocalTaskStore)) (b : Int) :
    gcGreedy s ((id, t) :: rest) b =
      if b - t.ContentLength ≤ 0 then
        ({ s with heap := s.heap.set id t.MarkReclaim },
         [{ PeerID := t.PeerID, TaskID := t.TaskID }])
      else
        ((gcGreedy { s with heap := s.heap.set id t.MarkReclaim } rest
            (b - t.ContentLength)).1,
         { PeerID := t.PeerID, TaskID := t.TaskID } ::
           (gcGreedy { s with heap := s.heap.set id t.MarkReclaim } rest
             (b - t.ContentLength)).2) :=
  rfl

theorem gcMarkExpired_preserves (now : Int) :
    ∀ (l : List (PeerTaskMetadata × Nat)) (s : StorageManager),
      (gcMarkExpired now s l).1.tasks = s.tasks
      ∧ (gcMarkExpired now s l).1.markedReclaimTasks = s.markedReclaimTasks
      ∧ ∀ i, (Heap.get (gcMarkExpired now s l).1.heap i).map LocalTaskStore.reclaimed
          = (Heap.get s.heap i).map LocalTaskStore.reclaimed := by
  intro l
  induction l with
  | nil => intro s; exact ⟨rfl, rfl, fun i => rfl⟩
  | cons p rest ih =>
    intro s
    obtain ⟨key, id⟩ := p
    rw [gcMarkExpired_cons]
    split
    · exact ih s
    · rename_i t hget
      split
      · obtain ⟨h1, h2, h3⟩ := ih { s with heap := s.heap.set id t.MarkReclaim }
        refine ⟨h1, h2, fun i => ?_⟩
        rw [h3 i]
        by_cases hi : i = id
        · subst hi
          rw [Heap.get_set_self, hget]
          rfl
        · rw [Heap.get_set_ne s.heap id i t.MarkReclaim hi]
      · exact ih s

theorem gcGreedy_preserves :
    ∀ (cands : List (Nat × LocalTaskStore)) (s : StorageManager) (b : Int),
      (∀ p ∈ cands, (Heap.get s.heap p.1).map LocalTaskStore.reclaimed =
          some p.2.reclaimed) →
      (gcGreedy s cands b).1.tasks = s.tasks
      ∧ ∀ i, (Heap.get (gcGreedy s cands b).1.heap i).map LocalTaskStore.reclaimed
          = (Heap.get s.heap i).map LocalTaskStore.reclaimed := by
  intro cands
  induction cands with
  | nil => intro s b _; exact ⟨rfl, fun i => rfl⟩
  | cons p rest ih =>
    intro s b hcand
    obtain ⟨id, t⟩ := p
    have hhead := hcand (id, t) (List.mem_cons_self _ _)
    have hA : ∀ i,
        (Heap.get (Heap.set s.heap id t.MarkReclaim) i).map LocalTaskStore.reclaimed
          = (Heap.get s.heap i).map LocalTaskStore.reclaimed := by
      intro i
      by_cases hi : i = id
      · subst hi
        rw [Heap.get_set_self]
        rcases hu : Heap.get s.heap i with _ | u
        · rfl
        · rw [hu] at hhead
          simp only [Option.map_some'] at hhead ⊢
          simpa [LocalTaskStore.MarkReclaim] using hhead.symm
      · rw [Heap.get_set_ne s.heap id i _ hi]
    rw [gcGreedy_cons]
    split
    · exact ⟨rfl, hA⟩
    · have hcand' : ∀ p ∈ rest,
          (Heap.get (Heap.set s.heap id t.MarkReclaim) p.1).map LocalTaskStore.reclaimed
            = some p.2.reclaimed := by
        intro p hp
        rw [hA p.1]
        exact hcand p (List.mem_cons_of_mem _ hp)
      obtain ⟨h1, h2⟩ := ih { s with heap := s.heap.set id t.MarkReclaim }
        (b - t.ContentLength) hcand'
      exact ⟨h1, fun i => (h2 i).trans (hA i)⟩

theorem gcCandidates_sound (s : StorageManager) (now : Int) :
    ∀ p ∈ gcCandidates s now,
      Heap.get s.heap p.1 = some p.2
      ∧ p.2.reclaimMarked = false
      ∧ (p.2.Done = true ∨ s.gcInterval ≤ now - p.2.lastAccess) := by
  intro p hp
  simp only [gcCandidates, List.mem_filterMap] at hp
  obtain ⟨a, ha, hfa⟩ := hp
  split at hfa
  · cases hfa
  · rename_i t hga
    split at hfa
    · cases hfa
    · rename_i hm
      split at hfa
      · cases hfa
      · rename_i hc
        obtain rfl : (a.2, t) = p := by simpa using hfa
        push_neg at hc
        refine ⟨hga, by simpa using hm, ?_⟩
        by_cases hd : t.Done = true
        · exact Or.inl hd
        · exact Or.inr (hc (by simpa using hd))

theorem alistFind_mem {α β : Type} [DecidableEq α] (m : List (α × β)) (k : α) (v : β)
    (h : alistFind m k = some v) : (k, v) ∈ m := by
  induction m with
  | nil => cases h
  | cons p rest ih =>
    obtain ⟨k', v'⟩ := p
    by_cases hk : k' = k
    · subst hk
      rw [show alistFind ((k', v') :: rest) k' = some v' from by simp [alistFind]] at h
      obtain rfl := Option.some.inj h
      exact List.mem_cons_self _ _
    · simp only [alistFind, if_neg hk] at h
      exact List.mem_cons_of_mem _ (ih h)

theorem nodup_snd_unique {α β : Type} (m : List (α × β))
    (hnd : (m.map Prod.snd).Nodup) (k1 k2 : α) (v : β)
    (h1 : (k1, v) ∈ m) (h2 : (k2, v) ∈ m) : k1 = k2 := by
  induction m with
  | nil => cases h1
  | cons p rest ih =>
    have hnd0 : (p.2 :: rest.map Prod.snd).Nodup := by simpa using hnd
    have hcons := List.nodup_cons.mp hnd0
    rcases List.mem_cons.mp h1 with he1 | ht1 <;> rcases List.mem_cons.mp h2 with he2 | ht2
    · have heq : (k1, v) = (k2, v) := he1.trans he2.symm
      exact congrArg Prod.fst heq
    · exfalso
      apply hcons.1
      have hv : v ∈ rest.map Prod.snd := List.mem_map_of_mem Prod.snd ht2
      rw [← he1]
      exact hv
    · exfalso
      apply hcons.1
      have hv : v ∈ rest.map Prod.snd := List.mem_map_of_mem Prod.snd ht1
      rw [← he2]
      exact hv
    · exact ih hcons.2 ht1 ht2

theorem gcDeleteStepState_fields (s : StorageManager) (key : PeerTaskMetadata)
    (id : Nat) (task : LocalTaskStore) :
    (gcDeleteStepState s key id task).tasks = alistErase s.tasks key
    ∧ ∀ j, j ≠ id →
        Heap.get (gcDeleteStepState s key id task).heap j = Heap.get s.heap j := by
  constructor
  · exact (cleanIndex_preserves { s with tasks := alistErase s.tasks key }
      task.TaskID task.PeerID).1
  · intro j hj
    show Heap.get (Heap.set _ id task.Reclaim) j = _
    rw [Heap.get_set_ne _ id j _ hj]
    exact congrArg (fun h => Heap.get h j)
      (cleanIndex_preserves { s with tasks := alistErase s.tasks key }
        task.TaskID task.PeerID).2.1

theorem gcDeletePass_untouched :
    ∀ (keys : List PeerTaskMetadata) (s : StorageManager)
      (marked : List PeerTaskMetadata) (key : PeerTaskMetadata) (id : Nat),
      alistFind s.tasks key = some id →
      (∀ k', alistFind s.tasks k' = some id → k' = key) →
      key ∉ keys →
      alistFind (gcDeletePass s marked keys).1.tasks key = some id
      ∧ Heap.get (gcDeletePass s marked keys).1.heap id = Heap.get s.heap id := by
  intro keys
  induction keys with
  | nil => intro s marked key id hfind _ _; exact ⟨hfind, rfl⟩
  | cons k0 rest ih =>
    intro s marked key id hfind hinj hnot
    have hk0 : k0 ≠ key := fun he => hnot (he ▸ List.mem_cons_self _ _)
    have hkey0 : key ≠ k0 := fun he => hk0 he.symm
    have hnot' : key ∉ rest := fun hm => hnot (List.mem_cons_of_mem _ hm)
    rw [gcDeletePass_cons]
    split
    · exact ih s marked key id hfind hinj hnot'
    · rename_i id0 hf0
      split
      · exact ih s marked key id hfind hinj hnot'
      · rename_i task hg0
        have hid0 : id0 ≠ id := fun he => hk0 (hinj k0 (he ▸ hf0))
        obtain ⟨hst, hsh⟩ := gcDeleteStepState_fields s k0 id0 task
        have hfind3 : alistFind (gcDeleteStepState s k0 id0 task).tasks key = some id := by
          rw [hst, alistFind_alistErase_ne s.tasks k0 key hkey0]
          exact hfind
        have hinj3 : ∀ k', alistFind (gcDeleteStepState s k0 id0 task).tasks k' = some id →
            k' = key := by
          intro k' hk'
          rw [hst] at hk'
          by_cases hkk : k' = k0
          · subst hkk
            rw [alistFind_alistErase_self] at hk'
            cases hk'
          · rw [alistFind_alistErase_ne s.tasks k0 k' hkk] at hk'
            exact hinj k' hk'
        obtain ⟨hres1, hres2⟩ := ih (gcDeleteStepState s k0 id0 task)
          (removeKeyOnce marked k0) key id hfind3 hinj3 hnot'
        exact ⟨hres1, hres2.trans (hsh id (fun he => hid0 he.symm))⟩

theorem quotaStep_preserves (s1 : StorageManager) (now : Int)
    (markedTasks : List PeerTaskMetadata) (total : Int) (ue : Bool × Int) :
    (quotaStep s1 now markedTasks total ue).1.tasks = s1.tasks
    ∧ ∀ i, (Heap.get (quotaStep s1 now markedTasks total ue).1.heap i).map
        LocalTaskStore.reclaimed = (Heap.get s1.heap i).map LocalTaskStore.reclaimed := by
  unfold quotaStep
  split
  · have hcand : ∀ p ∈ (gcCandidates s1 now).mergeSort byLastAccess,
        (Heap.get s1.heap p.1).map LocalTaskStore.reclaimed = some p.2.reclaimed := by
      intro p hp
      have hp2 : p ∈ gcCandidates s1 now := List.mem_mergeSort.mp hp
      rw [(gcCandidates_sound s1 now p hp2).1]
      rfl
    exact gcGreedy_preserves _ s1 _ hcand
  · exact ⟨rfl, fun i => rfl⟩

/-- C1 (amended): the `TryGC` deletion pass reclaims only stores whose
(TaskID, PeerID) key is in the previous pass's `markedReclaimTasks` set.
Any store whose key is not in that pending set — in particular one touched
within `TaskExpireTime` and never marked — survives the pass with its files
intact and stays in the `tasks` map (though a quota pass may newly mark it
for the next cycle); re-touching a store that is already in the pending set
does not prevent its deletion (see the counterexample). -/
theorem TryGC_preserves_unmarked (s : StorageManager) (now : Int)
    (usage : Option DiskUsage) (key : PeerTaskMetadata) (id : Nat)
    (t : LocalTaskStore)
    (hkey : alistFind s.tasks key = some id)
    (hnd : (s.tasks.map Prod.snd).Nodup)
    (hnot : key ∉ s.markedReclaimTasks)
    (ht : Heap.get s.heap id = some t)
    (hrec : t.reclaimed = false) :
    alistFind (s.TryGC now usage).1.tasks key = some id
    ∧ ∃ t', Heap.get (s.TryGC now usage).1.heap id = some t'
        ∧ t'.reclaimed = false := by
  obtain ⟨hm_t, _, hm_h⟩ := gcMarkExpired_preserves now s.tasks s
  obtain ⟨hq_t, hq_h⟩ := quotaStep_preserves (gcMarkExpired now s s.tasks).1 now
    (gcMarkExpired now s s.tasks).2.1 (gcMarkExpired now s s.tasks).2.2
    (s.diskUsageExceed usage)
  have hfind2 : alistFind (quotaStep (gcMarkExpired now s s.tasks).1 now
      (gcMarkExpired now s s.tasks).2.1 (gcMarkExpired now s s.tasks).2.2
      (s.diskUsageExceed usage)).1.tasks key = some id := by
    rw [hq_t, hm_t]
    exact hkey
  have hinj2 : ∀ k', alistFind (quotaStep (gcMarkExpired now s s.tasks).1 now
      (gcMarkExpired now s s.tasks).2.1 (gcMarkExpired now s s.tasks).2.2
      (s.diskUsageExceed usage)).1.tasks k' = some id → k' = key := by
    intro k' hk'
    rw [hq_t, hm_t] at hk'
    exact nodup_snd_unique s.tasks hnd k' key id
      (alistFind_mem _ _ _ hk') (alistFind_mem _ _ _ hkey)
  obtain ⟨hfin, hheap⟩ := gcDeletePass_untouched s.markedReclaimTasks _ _ key id
    hfind2 hinj2 hnot
  refine ⟨hfin, ?_⟩
  have hmap : (Heap.get (s.TryGC now usage).1.heap id).map LocalTaskStore.reclaimed =
      some false := by
    have hh : Heap.get (s.TryGC now usage).1.heap id =
        Heap.get (quotaStep (gcMarkExpired now s s.tasks).1 now
          (gcMarkExpired now s s.tasks).2.1 (gcMarkExpired now s s.tasks).2.2
          (s.diskUsageExceed usage)).1.heap id := hheap
    rw [hh, hq_h id, hm_h id, ht]
    simp [hrec]
  rcases hfinal : Heap.get (s.TryGC now usage).1.heap id with _ | t2
  · rw [hfinal] at hmap
    cases hmap
  · rw [hfinal] at hmap
    simp only [Option.map_some', Option.some.injEq] at hmap
    exact ⟨t2, rfl, hmap⟩

/-- Witness for C1's amended theorem: a recently touched, never marked
store survives a `TryGC` pass. -/
theorem TryGC_preserves_unmarked_witness :
    alistFind (c1SafeManager.TryGC 100 none).1.tasks c1SafeKey = some 0
    ∧ ∃ t', Heap.get (c1SafeManager.TryGC 100 none).1.heap 0 = some t'
        ∧ t'.reclaimed = false :=
  TryGC_preserves_unmarked c1SafeManager 100 none c1SafeKey 0
    { baseStore with
      TaskID := "task-s", PeerID := "peer-s",
      lastAccess := 100, expireTime := 1000000 }
    rfl (by decide) (by decide) rfl rfl

/-- C1 counterexample: the single store was touched at the very pass time
(so `CanReclaim` is false: last access is within `TaskExpireTime`), yet
because it sits in the pending `markedReclaimTasks` set from the previous
pass, `TryGC` still deletes its files and removes it from the map. -/
theorem TryGC_retouched_deleted_counterexample :
    (Heap.get gcManager.heap 0).map (fun t => t.CanReclaim 100) = some false
    ∧ (Heap.get gcManager.heap 0).map LocalTaskStore.reclaimed = some false
    ∧ gKey ∈ gcManager.markedReclaimTasks
    ∧ (Heap.get (gcManager.TryGC 100 none).1.heap 0).map LocalTaskStore.reclaimed =
        some true
    ∧ alistFind (gcManager.TryGC 100 none).1.tasks gKey = none := by
  decide

theorem byLastAccess_trans : ∀ (a b c : Nat × LocalTaskStore),
    byLastAccess a b → byLastAccess b c → byLastAccess a c := by
  intro a b c hab hbc
  simp only [byLastAccess, decide_eq_true_eq] at *
  omega

theorem byLastAccess_total : ∀ (a b : Nat × LocalTaskStore),
    byLastAccess a b || byLastAccess b a := by
  intro a b
  rcases le_total a.2.lastAccess b.2.lastAccess with h | h
  · simp [byLastAccess, h]
  · simp [byLastAccess, h]

theorem gcGreedy_keeps_marked :
    ∀ (cands : List (Nat × LocalTaskStore)) (s : StorageManager) (b : Int) (i : Nat),
      (Heap.get s.heap i).map (fun u => u.reclaimMarked) = some true →
      (Heap.get (gcGreedy s cands b).1.heap i).map (fun u => u.reclaimMarked) =
        some true := by
  intro cands
  induction cands with
  | nil => intro s b i h; exact h
  | cons p rest ih =>
    intro s b i h
    obtain ⟨id, t⟩ := p
    have hstep : (Heap.get (Heap.set s.heap id t.MarkReclaim) i).map
        (fun u => u.reclaimMarked) = some true := by
      by_cases hi : i = id
      · subst hi
        rw [Heap.get_set_self]
        rcases hu : Heap.get s.heap i with _ | u
        · rw [hu] at h
          cases h
        · simp [LocalTaskStore.MarkReclaim]
      · rw [Heap.get_set_ne s.heap id i _ hi]
        exact h
    rw [gcGreedy_cons]
    split
    · exact hstep
    · exact ih _ _ i hstep

theorem gcGreedy_spec :
    ∀ (cands : List (Nat × LocalTaskStore)) (s : StorageManager) (b : Int),
      (∀ p ∈ cands, (Heap.get s.heap p.1).isSome = true) →
      ∃ P rest, cands = P ++ rest
        ∧ (gcGreedy s cands b).2 = P.map toKey
        ∧ (∀ Q R, P = Q ++ R → Q ≠ [] → R ≠ [] → 0 < b - sumCL Q)
        ∧ (rest = [] ∨ b - sumCL P ≤ 0)
        ∧ (cands ≠ [] → P ≠ [])
        ∧ (∀ p ∈ P, (Heap.get (gcGreedy s cands b).1.heap p.1).map
            (fun u => u.reclaimMarked) = some true) := by
  intro cands
  induction cands with
  | nil =>
    intro s b _
    refine ⟨[], [], rfl, rfl, ?_, Or.inl rfl, fun h => absurd rfl h, by simp⟩
    intro Q R hQR hQ hR
    rcases Q with _ | ⟨q, Q2⟩
    · exact absurd rfl hQ
    · cases hQR
  | cons c cs ih =>
    intro s b hsome
    obtain ⟨id, t⟩ := c
    have hhead : (Heap.get s.heap id).isSome = true :=
      hsome (id, t) (List.mem_cons_self _ _)
    obtain ⟨u, hu⟩ := Option.isSome_iff_exists.mp hhead
    rw [gcGreedy_cons]
    by_cases hstop : b - t.ContentLength ≤ 0
    · rw [if_pos hstop]
      refine ⟨[(id, t)], cs, rfl, rfl, ?_, Or.inr ?_, fun _ => by simp, ?_⟩
      · intro Q R hQR hQ hR
        rcases Q with _ | ⟨q, Q2⟩
        · exact absurd rfl hQ
        · simp only [List.cons_append, List.cons.injEq] at hQR
          obtain ⟨-, hQR2⟩ := hQR
          rcases List.append_eq_nil.mp hQR2.symm with ⟨-, hRnil⟩
          exact absurd hRnil hR
      · simpa [sumCL] using hstop
      · intro p hp
        simp only [List.mem_singleton] at hp
        subst hp
        show (Heap.get (Heap.set s.heap id t.MarkReclaim) id).map
          (fun u => u.reclaimMarked) = some true
        rw [Heap.get_set_self, hu]
        simp [LocalTaskStore.MarkReclaim]
    · rw [if_neg hstop]
      have hsome2 : ∀ p ∈ cs,
          (Heap.get (Heap.set s.heap id t.MarkReclaim) p.1).isSome = true := by
        intro p hp
        by_cases hi : p.1 = id
        · rw [hi, Heap.get_set_self, hu]
          rfl
        · rw [Heap.get_set_ne s.heap id p.1 _ hi]
          exact hsome p (List.mem_cons_of_mem _ hp)
      obtain ⟨P2, rest2, hsplit, hmarked, hmin, hstop2, hne2, hmstate⟩ :=
        ih { s with heap := s.heap.set id t.MarkReclaim } (b - t.ContentLength) hsome2
      refine ⟨(id, t) :: P2, rest2, by rw [List.cons_append, ← hsplit],
        by rw [hmarked]; rfl, ?_, ?_, fun _ => by simp, ?_⟩
      · intro Q R hQR hQ hR
        rcases Q with _ | ⟨q, Q2⟩
        · exact absurd rfl hQ
        · simp only [List.cons_append, List.cons.injEq] at hQR
          obtain ⟨hq, hQR2⟩ := hQR
          rcases Q2 with _ | ⟨q2, Q3⟩
          · have h2 : 0 < b - t.ContentLength := by omega
            subst hq
            simpa [sumCL] using h2
          · have h2 := hmin (q2 :: Q3) R hQR2 (by simp) hR
            subst hq
            simp only [sumCL, List.map_cons, List.sum_cons] at h2 ⊢
            omega
      · rcases hstop2 with h | h
        · exact Or.inl h
        · refine Or.inr ?_
          simp only [sumCL, List.map_cons, List.sum_cons] at h ⊢
          omega
      · intro p hp
        rcases List.mem_cons.mp hp with he | hm
        · subst he
          apply gcGreedy_keeps_marked
          show (Heap.get (Heap.set s.heap id t.MarkReclaim) id).map
            (fun u => u.reclaimMarked) = some true
          rw [Heap.get_set_self, hu]
          simp [LocalTaskStore.MarkReclaim]
        · exact hmstate p hm

theorem removeKeyOnce_cons (a : PeerTaskMetadata) (rest : List PeerTaskMetadata)
    (key : PeerTaskMetadata) :
    removeKeyOnce (a :: rest) key =
      if a.TaskID = key.TaskID ∧ a.PeerID = key.PeerID then rest
      else a :: removeKeyOnce rest key := rfl

theorem removeKeyOnce_mem (l : List PeerTaskMetadata) (key k : PeerTaskMetadata)
    (hk : k ∈ l) (hne : ¬ (k.TaskID = key.TaskID ∧ k.PeerID = key.PeerID)) :
    k ∈ removeKeyOnce l key := by
  induction l with
  | nil => cases hk
  | cons a rest ih =>
    rw [removeKeyOnce_cons]
    by_cases hm : a.TaskID = key.TaskID ∧ a.PeerID = key.PeerID
    · rw [if_pos hm]
      rcases List.mem_cons.mp hk with he | hmem
      · subst he
        exact absurd hm hne
      · exact hmem
    · rw [if_neg hm]
      rcases List.mem_cons.mp hk with he | hmem
      · subst he
        exact List.mem_cons_self _ _
      · exact List.mem_cons_of_mem _ (ih hmem)

theorem gcDeletePass_nil (s : StorageManager) (marked : List PeerTaskMetadata) :
    gcDeletePass s marked [] = (s, (marked, [])) := rfl

theorem gcDeletePass_marked_mem :
    ∀ (pending : List PeerTaskMetadata) (s : StorageManager)
      (marked : List PeerTaskMetadata) (k : PeerTaskMetadata),
      k ∈ marked →
      (∀ key ∈ pending, ¬ (k.TaskID = key.TaskID ∧ k.PeerID = key.PeerID)) →
      k ∈ (gcDeletePass s marked pending).2.1 := by
  intro pending
  induction pending with
  | nil =>
    intro s marked k hk _
    rw [gcDeletePass_nil]
    exact hk
  | cons key0 rest ih =>
    intro s marked k hk hcond
    rw [gcDeletePass_cons]
    cases hf : alistFind s.tasks key0 with
    | none =>
      simp only [hf]
      exact ih s marked k hk fun key hkey => hcond key (List.mem_cons_of_mem _ hkey)
    | some id =>
      simp only [hf]
      cases hg : Heap.get s.heap id with
      | none =>
        simp only [hg]
        exact ih s marked k hk fun key hkey => hcond key (List.mem_cons_of_mem _ hkey)
      | some task =>
        simp only [hg]
        show k ∈ (gcDeletePass (gcDeleteStepState s key0 id task)
          (removeKeyOnce marked key0) rest).2.1
        exact ih _ _ k
          (removeKeyOnce_mem marked key0 k hk (hcond key0 (List.mem_cons_self _ _)))
          fun key hkey => hcond key (List.mem_cons_of_mem _ hkey)

/-- C5 (amended): in a `TryGC` pass — with `s1`, `markedTasks` and `total`
the state, marked keys and unmarked-size total left by the expiry phase,
and `ue` the disk-usage check — the quota phase runs iff
`DiskGCThreshold > 0` and `total` exceeds it, or `diskUsageExceed` fires
(used percent at least the positive percent threshold).  When it runs, the
bytes to reclaim are the maximum of the quota excess and the usage excess;
the candidates — stores not already marked for reclaim that are Done or
whose last access is at least one GC interval old — are stably sorted by
last-access ascending and a prefix of that order is marked, subtracting
each store's `ContentLength` and stopping as soon as the remaining excess
is `≤ 0` (always marking at least one store when a candidate exists);
otherwise nothing is marked and the state is unchanged.  The pass then
runs the deletion loop over the previous cycle's pending keys on exactly
this quota-marked state and persists this cycle's marked keys: each of
them ends the pass in `markedReclaimTasks` unless it shares a
`(TaskID, PeerID)` with a previously pending key (which the deletion loop
may reclaim and drop). -/
theorem TryGC_quota_marking (s : StorageManager) (now : Int)
    (usage : Option DiskUsage) (s1 : StorageManager)
    (markedTasks : List PeerTaskMetadata) (total : Int) (ue : Bool × Int)
    (h1 : gcMarkExpired now s s.tasks = (s1, (markedTasks, total)))
    (hue : s.diskUsageExceed usage = ue) :
    (¬ ((0 < s1.diskGCThreshold ∧ 0 < total - s1.diskGCThreshold) ∨ ue.1 = true) →
      quotaStep s1 now markedTasks total ue = (s1, markedTasks))
    ∧ (((0 < s1.diskGCThreshold ∧ 0 < total - s1.diskGCThreshold) ∨ ue.1 = true) →
      ∃ P rest,
        (gcCandidates s1 now).mergeSort byLastAccess = P ++ rest
        ∧ (quotaStep s1 now markedTasks total ue).2 = markedTasks ++ P.map toKey
        ∧ List.Pairwise (fun a b : Nat × LocalTaskStore =>
            a.2.lastAccess ≤ b.2.lastAccess) (P ++ rest)
        ∧ (∀ p ∈ P ++ rest,
            Heap.get s1.heap p.1 = some p.2
            ∧ p.2.reclaimMarked = false
            ∧ (p.2.Done = true ∨ s1.gcInterval ≤ now - p.2.lastAccess))
        ∧ (∀ Q R, P = Q ++ R → Q ≠ [] → R ≠ [] →
            0 < max (total - s1.diskGCThreshold) ue.2 - sumCL Q)
        ∧ (rest = [] ∨ max (total - s1.diskGCThreshold) ue.2 - sumCL P ≤ 0)
        ∧ ((gcCandidates s1 now).mergeSort byLastAccess ≠ [] → P ≠ [])
        ∧ (∀ p ∈ P, (Heap.get (quotaStep s1 now markedTasks total ue).1.heap p.1).map
            (fun u => u.reclaimMarked) = some true))
    ∧ s.TryGC now usage =
        ({ (gcDeletePass (quotaStep s1 now markedTasks total ue).1
              (quotaStep s1 now markedTasks total ue).2 s.markedReclaimTasks).1 with
            markedReclaimTasks :=
              (gcDeletePass (quotaStep s1 now markedTasks total ue).1
                (quotaStep s1 now markedTasks total ue).2 s.markedReclaimTasks).2.1 },
          (gcDeletePass (quotaStep s1 now markedTasks total ue).1
            (quotaStep s1 now markedTasks total ue).2 s.markedReclaimTasks).2.2)
    ∧ (∀ k ∈ (quotaStep s1 now markedTasks total ue).2,
        (∀ key ∈ s.markedReclaimTasks,
          ¬ (k.TaskID = key.TaskID ∧ k.PeerID = key.PeerID)) →
        k ∈ (s.TryGC now usage).1.markedReclaimTasks) := by
  have htry : s.TryGC now usage =
      ({ (gcDeletePass (quotaStep s1 now markedTasks total ue).1
            (quotaStep s1 now markedTasks total ue).2 s.markedReclaimTasks).1 with
          markedReclaimTasks :=
            (gcDeletePass (quotaStep s1 now markedTasks total ue).1
              (quotaStep s1 now markedTasks total ue).2 s.markedReclaimTasks).2.1 },
        (gcDeletePass (quotaStep s1 now markedTasks total ue).1
          (quotaStep s1 now markedTasks total ue).2 s.markedReclaimTasks).2.2) := by
    simp only [StorageManager.TryGC]
    rw [h1, hue]
  have hifmax : (if ue.2 < total - s1.diskGCThreshold then total - s1.diskGCThreshold
      else ue.2) = max (total - s1.diskGCThreshold) ue.2 := by
    by_cases h : ue.2 < total - s1.diskGCThreshold
    · rw [if_pos h]
      exact (max_eq_left h.le).symm
    · rw [if_neg h]
      exact (max_eq_right (not_lt.mp h)).symm
  refine ⟨?_, ?_, htry, ?_⟩
  · intro hno
    unfold quotaStep
    rw [if_neg hno]
  · intro htrig
    have hsome : ∀ p ∈ (gcCandidates s1 now).mergeSort byLastAccess,
        (Heap.get s1.heap p.1).isSome = true := by
      intro p hp
      rw [(gcCandidates_sound s1 now p (List.mem_mergeSort.mp hp)).1]
      rfl
    obtain ⟨P, rest, hsplit, hmarked, hmin, hstop, hne, hmstate⟩ :=
      gcGreedy_spec ((gcCandidates s1 now).mergeSort byLastAccess) s1
        (max (total - s1.diskGCThreshold) ue.2) hsome
    refine ⟨P, rest, hsplit, ?_, ?_, ?_, hmin, hstop, hne, ?_⟩
    · unfold quotaStep
      rw [if_pos htrig]
      show markedTasks ++ (gcGreedy s1 _ _).2 = _
      rw [hifmax, hmarked]
    · have hsorted := List.sorted_mergeSort byLastAccess_trans byLastAccess_total
        (gcCandidates s1 now)
      rw [hsplit] at hsorted
      exact hsorted.imp fun h => by simpa [byLastAccess] using h
    · intro p hp
      rw [← hsplit] at hp
      exact gcCandidates_sound s1 now p (List.mem_mergeSort.mp hp)
    · intro p hp
      unfold quotaStep
      rw [if_pos htrig]
      show (Heap.get (gcGreedy s1 _ _).1.heap p.1).map _ = some true
      rw [hifmax]
      exact hmstate p hp
  · intro k hk hcond
    rw [htry]
    show k ∈ (gcDeletePass (quotaStep s1 now markedTasks total ue).1
      (quotaStep s1 now markedTasks total ue).2 s.markedReclaimTasks).2.1
    exact gcDeletePass_marked_mem s.markedReclaimTasks _ _ k hk hcond

/-- Witness for C5's amended theorem: a configured 3-byte quota with 5
bytes of live store triggers the marking phase of a full `TryGC` pass,
with the expiry phase's outcome and the usage check discharged by
computation. -/
theorem TryGC_quota_marking_witness :
    (¬ ((0 < c5TrigManager.diskGCThreshold ∧ 0 < 5 - c5TrigManager.diskGCThreshold)
        ∨ (false, (0 : Int)).1 = true) →
      quotaStep c5TrigManager 100 [] 5 (false, 0) = (c5TrigManager, []))
    ∧ (((0 < c5TrigManager.diskGCThreshold ∧ 0 < 5 - c5TrigManager.diskGCThreshold)
        ∨ (false, (0 : Int)).1 = true) →
      ∃ P rest,
        (gcCandidates c5TrigManager 100).mergeSort byLastAccess = P ++ rest
        ∧ (quotaStep c5TrigManager 100 [] 5 (false, 0)).2 = [] ++ P.map toKey
        ∧ List.Pairwise (fun a b : Nat × LocalTaskStore =>
            a.2.lastAccess ≤ b.2.lastAccess) (P ++ rest)
        ∧ (∀ p ∈ P ++ rest,
            Heap.get c5TrigManager.heap p.1 = some p.2
            ∧ p.2.reclaimMarked = false
            ∧ (p.2.Done = true ∨ c5TrigManager.gcInterval ≤ 100 - p.2.lastAccess))
        ∧ (∀ Q R, P = Q ++ R → Q ≠ [] → R ≠ [] →
            0 < max (5 - c5TrigManager.diskGCThreshold) (false, (0 : Int)).2 - sumCL Q)
        ∧ (rest = [] ∨ max (5 - c5TrigManager.diskGCThreshold) (false, (0 : Int)).2 -
            sumCL P ≤ 0)
        ∧ ((gcCandidates c5TrigManager 100).mergeSort byLastAccess ≠ [] → P ≠ [])
        ∧ (∀ p ∈ P, (Heap.get (quotaStep c5TrigManager 100 [] 5 (false, 0)).1.heap
            p.1).map (fun u => u.reclaimMarked) = some true))
    ∧ c5TrigManager.TryGC 100 none =
        ({ (gcDeletePass (quotaStep c5TrigManager 100 [] 5 (false, 0)).1
              (quotaStep c5TrigManager 100 [] 5 (false, 0)).2
              c5TrigManager.markedReclaimTasks).1 with
            markedReclaimTasks :=
              (gcDeletePass (quotaStep c5TrigManager 100 [] 5 (false, 0)).1
                (quotaStep c5TrigManager 100 [] 5 (false, 0)).2
                c5TrigManager.markedReclaimTasks).2.1 },
          (gcDeletePass (quotaStep c5TrigManager 100 [] 5 (false, 0)).1
            (quotaStep c5TrigManager 100 [] 5 (false, 0)).2
            c5TrigManager.markedReclaimTasks).2.2)
    ∧ (∀ k ∈ (quotaStep c5TrigManager 100 [] 5 (false, 0)).2,
        (∀ key ∈ c5TrigManager.markedReclaimTasks,
          ¬ (k.TaskID = key.TaskID ∧ k.PeerID = key.PeerID)) →
        k ∈ (c5TrigManager.TryGC 100 none).1.markedReclaimTasks) :=
  TryGC_quota_marking c5TrigManager 100 none c5TrigManager [] 5 (false, 0) rfl rfl

/-- C5 counterexample: with `DiskGCThreshold = 0` (unconfigured) the total
size of not-expired stores (5 bytes) strictly exceeds the threshold and a
Done candidate exists, yet the pass performs no quota marking — the code
additionally requires `DiskGCThreshold > 0`, which the claim omits. -/
theorem TryGC_quota_trigger_counterexample :
    (gcMarkExpired 100 c5Manager c5Manager.tasks).2.2 = 5
    ∧ c5Manager.diskGCThreshold = 0
    ∧ c5Manager.diskGCThreshold < 5
    ∧ (Heap.get (c5Manager.TryGC 100 none).1.heap 0).map
        (fun u => u.reclaimMarked) = some false
    ∧ (c5Manager.TryGC 100 none).1.markedReclaimTasks = [] := by
  decide

/-! Reload lemmas (C6). -/
theorem reloadPeers_cons (now : Int) (taskID : String) (s : StorageManager)
    (p : DiskPeerDir) (rest : List DiskPeerDir) :
    reloadPeers now taskID s (p :: rest) =
      match p.meta with
      | MetaState.unopenable =>
        ((reloadPeers now taskID s rest).1,
          p.peerID :: (reloadPeers now taskID s rest).2)
      | MetaState.unparseable =>
        ((reloadPeers now taskID s rest).1,
          p.peerID :: (reloadPeers now taskID s rest).2)
      | MetaState.parseOk pm =>
        reloadPeers now taskID (registerReloaded now s taskID p.peerID pm) rest := rfl

theorem reloadScan_cons (now : Int) (s : StorageManager) (td : DiskTaskDir)
    (rest : List DiskTaskDir) :
    reloadScan now s (td :: rest) =
      if ¬ td.readable then
        ((reloadScan now s rest).1,
          ((reloadScan now s rest).2.1, td :: (reloadScan now s rest).2.2))
      else if td.peers.isEmpty then
        if (goJoin s.dataPath td.taskID).startsWith "." then
          ((reloadScan now s rest).1,
            ((reloadScan now s rest).2.1, td :: (reloadScan now s rest).2.2))
        else reloadScan now s rest
      else
        ((reloadScan now (reloadPeers now td.taskID s td.peers).1 rest).1,
          (((reloadPeers now td.taskID s td.peers).2.map fun pid => (td.taskID, pid)) ++
              (reloadScan now (reloadPeers now td.taskID s td.peers).1 rest).2.1,
            td :: (reloadScan now (reloadPeers now td.taskID s td.peers).1 rest).2.2)) := rfl

theorem symlinkCollect_cons (errs : List (String × String)) (tid : String)
    (p : DiskPeerDir) (rest : List DiskPeerDir) (acc : List String) :
    symlinkCollect errs tid (p :: rest) acc =
      if (tid, p.peerID) ∈ errs ∧ p.data.present then
        match p.data.symlinkDest with
        | some d => d :: symlinkCollect errs tid rest acc
        | none => symlinkCollect errs tid rest acc
      else symlinkCollect errs tid rest acc := rfl

theorem symlinkDests_cons (errs : List (String × String)) (td0 : DiskTaskDir)
    (rest : List DiskTaskDir) :
    symlinkDests errs (td0 :: rest) =
      symlinkCollect errs td0.taskID td0.peers (symlinkDests errs rest) := rfl

theorem metaFailed_false (p : DiskPeerDir) (h : metaFailed p = false) :
    ∃ pm, p.meta = MetaState.parseOk pm := by
  cases hm : p.meta with
  | unopenable => simp [metaFailed, hm] at h
  | unparseable => simp [metaFailed, hm] at h
  | parseOk pm => exact ⟨pm, rfl⟩

theorem registerReloaded_find_self (now : Int) (s : StorageManager)
    (taskID peerID : String) (pm : PersistentMeta) :
    alistFind (registerReloaded now s taskID peerID pm).tasks
      { PeerID := peerID, TaskID := taskID } = some s.nextID := by
  show alistFind (alistSet s.tasks { PeerID := peerID, TaskID := taskID } s.nextID)
      { PeerID := peerID, TaskID := taskID } = some s.nextID
  exact alistFind_alistSet_self _ _ _

theorem registerReloaded_find_mono (now : Int) (s : StorageManager)
    (taskID peerID : String) (pm : PersistentMeta) (k : PeerTaskMetadata)
    (h : (alistFind s.tasks k).isSome = true) :
    (alistFind (registerReloaded now s taskID peerID pm).tasks k).isSome = true := by
  show (alistFind (alistSet s.tasks { PeerID := peerID, TaskID := taskID } s.nextID)
      k).isSome = true
  by_cases he : k = { PeerID := peerID, TaskID := taskID }
  · subst he
    rw [alistFind_alistSet_self]
    rfl
  · rw [alistFind_alistSet_ne _ _ _ _ he]
    exact h

theorem registerReloaded_find_ne (now : Int) (s : StorageManager)
    (taskID peerID : String) (pm : PersistentMeta) (k : PeerTaskMetadata)
    (h : k ≠ { PeerID := peerID, TaskID := taskID }) :
    alistFind (registerReloaded now s taskID peerID pm).tasks k =
      alistFind s.tasks k := by
  show alistFind (alistSet s.tasks { PeerID := peerID, TaskID := taskID } s.nextID) k =
      alistFind s.tasks k
  exact alistFind_alistSet_ne _ _ _ _ h

theorem reloadPeers_mono (now : Int) (taskID : String) (peers : List DiskPeerDir) :
    ∀ (s : StorageManager) (k : PeerTaskMetadata),
      (alistFind s.tasks k).isSome = true →
      (alistFind (reloadPeers now taskID s peers).1.tasks k).isSome = true := by
  induction peers with
  | nil => intro s k h; exact h
  | cons p rest ih =>
    intro s k h
    cases hm : p.meta with
    | unopenable =>
      have h1 : (reloadPeers now taskID s (p :: rest)).1 =
          (reloadPeers now taskID s rest).1 := by
        rw [reloadPeers_cons]; simp [hm]
      rw [h1]; exact ih s k h
    | unparseable =>
      have h1 : (reloadPeers now taskID s (p :: rest)).1 =
          (reloadPeers now taskID s rest).1 := by
        rw [reloadPeers_cons]; simp [hm]
      rw [h1]; exact ih s k h
    | parseOk pm =>
      have h1 : (reloadPeers now taskID s (p :: rest)).1 =
          (reloadPeers now taskID (registerReloaded now s taskID p.peerID pm) rest).1 := by
        rw [reloadPeers_cons]; simp [hm]
      rw [h1]
      exact ih _ k (registerReloaded_find_mono now s taskID p.peerID pm k h)

theorem reloadScan_mono (now : Int) (dirs : List DiskTaskDir) :
    ∀ (s : StorageManager) (k : PeerTaskMetadata),
      (alistFind s.tasks k).isSome = true →
      (alistFind (reloadScan now s dirs).1.tasks k).isSome = true := by
  induction dirs with
  | nil => intro s k h; exact h
  | cons td0 rest ih =>
    intro s k h
    cases hr : td0.readable with
    | false =>
      have h1 : (reloadScan now s (td0 :: rest)).1 = (reloadScan now s rest).1 := by
        rw [reloadScan_cons]; simp [hr]
      rw [h1]; exact ih s k h
    | true =>
      cases hemp : td0.peers.isEmpty with
      | true =>
        have h1 : (reloadScan now s (td0 :: rest)).1 = (reloadScan now s rest).1 := by
          rw [reloadScan_cons]
          by_cases hdot : (goJoin s.dataPath td0.taskID).startsWith "."
          · simp [hr, hemp, hdot]
          · simp [hr, hemp, hdot]
        rw [h1]; exact ih s k h
      | false =>
        have h1 : (reloadScan now s (td0 :: rest)).1 =
            (reloadScan now (reloadPeers now td0.taskID s td0.peers).1 rest).1 := by
          rw [reloadScan_cons]; simp [hr, hemp]
        rw [h1]
        exact ih _ k (reloadPeers_mono now td0.taskID td0.peers s k h)

theorem reloadPeers_registers (now : Int) (taskID : String)
    (peers : List DiskPeerDir) :
    ∀ (s : StorageManager) (p : DiskPeerDir) (pm : PersistentMeta),
      p ∈ peers → p.meta = MetaState.parseOk pm →
      (alistFind (reloadPeers now taskID s peers).1.tasks
        { PeerID := p.peerID, TaskID := taskID }).isSome = true := by
  induction peers with
  | nil => intro s p pm h; cases h
  | cons q rest ih =>
    intro s p pm hmem hpm
    rcases List.mem_cons.mp hmem with he | hmem2
    · subst he
      have h1 : (reloadPeers now taskID s (p :: rest)).1 =
          (reloadPeers now taskID (registerReloaded now s taskID p.peerID pm) rest).1 := by
        rw [reloadPeers_cons]; simp [hpm]
      rw [h1]
      apply reloadPeers_mono
      rw [registerReloaded_find_self]
      rfl
    · cases hqm : q.meta with
      | unopenable =>
        have h1 : (reloadPeers now taskID s (q :: rest)).1 =
            (reloadPeers now taskID s rest).1 := by
          rw [reloadPeers_cons]; simp [hqm]
        rw [h1]; exact ih s p pm hmem2 hpm
      | unparseable =>
        have h1 : (reloadPeers now taskID s (q :: rest)).1 =
            (reloadPeers now taskID s rest).1 := by
          rw [reloadPeers_cons]; simp [hqm]
        rw [h1]; exact ih s p pm hmem2 hpm
      | parseOk pm2 =>
        have h1 : (reloadPeers now taskID s (q :: rest)).1 =
            (reloadPeers now taskID (registerReloaded now s taskID q.peerID pm2) rest).1 := by
          rw [reloadPeers_cons]; simp [hqm]
        rw [h1]; exact ih _ p pm hmem2 hpm

theorem reloadScan_registers (now : Int) (dirs : List DiskTaskDir) :
    ∀ (s : StorageManager) (td : DiskTaskDir) (p : DiskPeerDir) (pm : PersistentMeta),
      td ∈ dirs → td.readable = true → p ∈ td.peers →
      p.meta = MetaState.parseOk pm →
      (alistFind (reloadScan now s dirs).1.tasks
        { PeerID := p.peerID, TaskID := td.taskID }).isSome = true := by
  induction dirs with
  | nil => intro s td p pm h; cases h
  | cons td0 rest ih =>
    intro s td p pm hmem hr hp hpm
    rcases List.mem_cons.mp hmem with he | hmem2
    · subst he
      have hemp : td.peers.isEmpty = false := by
        cases hq : td.peers with
        | nil => rw [hq] at hp; cases hp
        | cons a l => rfl
      have h1 : (reloadScan now s (td :: rest)).1 =
          (reloadScan now (reloadPeers now td.taskID s td.peers).1 rest).1 := by
        rw [reloadScan_cons]; simp [hr, hemp]
      rw [h1]
      apply reloadScan_mono
      exact reloadPeers_registers now td.taskID td.peers s p pm hp hpm
    · cases hr0 : td0.readable with
      | false =>
        have h1 : (reloadScan now s (td0 :: rest)).1 = (reloadScan now s rest).1 := by
          rw [reloadScan_cons]; simp [hr0]
        rw [h1]; exact ih s td p pm hmem2 hr hp hpm
      | true =>
        cases hemp0 : td0.peers.isEmpty with
        | true =>
          have h1 : (reloadScan now s (td0 :: rest)).1 = (reloadScan now s rest).1 := by
            rw [reloadScan_cons]
            by_cases hdot : (goJoin s.dataPath td0.taskID).startsWith "."
            · simp [hr0, hemp0, hdot]
            · simp [hr0, hemp0, hdot]
          rw [h1]; exact ih s td p pm hmem2 hr hp hpm
        | false =>
          have h1 : (reloadScan now s (td0 :: rest)).1 =
              (reloadScan now (reloadPeers now td0.taskID s td0.peers).1 rest).1 := by
            rw [reloadScan_cons]; simp [hr0, hemp0]
          rw [h1]; exact ih _ td p pm hmem2 hr hp hpm

theorem reloadScan_root_sub (now : Int) (dirs : List DiskTaskDir) :
    ∀ (s : StorageManager) (td : DiskTaskDir),
      td ∈ (reloadScan now s dirs).2.2 → td ∈ dirs := by
  induction dirs with
  | nil =>
    intro s td h
    simp [reloadScan] at h
  | cons td0 rest ih =>
    intro s td h
    rw [reloadScan_cons] at h
    by_cases hr : td0.readable = true
    · by_cases hemp : td0.peers.isEmpty = true
      · by_cases hdot : (goJoin s.dataPath td0.taskID).startsWith "."
        · simp only [hr, hemp, hdot] at h
          simp at h
          rcases h with he | h2
          · exact he ▸ List.mem_cons_self _ _
          · exact List.mem_cons_of_mem _ (ih s td h2)
        · simp only [hr, hemp, hdot] at h
          simp [hdot] at h
          exact List.mem_cons_of_mem _ (ih s td h)
      · simp only [hr, hemp] at h
        simp [hemp] at h
        rcases h with he | h2
        · exact he ▸ List.mem_cons_self _ _
        · exact List.mem_cons_of_mem _ (ih _ td h2)
    · simp [hr] at h
      rcases h with he | h2
      · exact he ▸ List.mem_cons_self _ _
      · exact List.mem_cons_of_mem _ (ih s td h2)

theorem reloadScan_root_keeps (now : Int) (dirs : List DiskTaskDir) :
    ∀ (s : StorageManager) (td : DiskTaskDir),
      td ∈ dirs → td.readable = true → td.peers ≠ [] →
      td ∈ (reloadScan now s dirs).2.2 := by
  induction dirs with
  | nil => intro s td h; cases h
  | cons td0 rest ih =>
    intro s td hmem hr hne
    rw [reloadScan_cons]
    rcases List.mem_cons.mp hmem with he | hmem2
    · subst he
      have hemp : td.peers.isEmpty = false := by
        cases hq : td.peers with
        | nil => exact absurd hq hne
        | cons a l => rfl
      simp [hr, hemp]
    · cases hr0 : td0.readable with
      | false =>
        simp [hr0]
        exact Or.inr (ih s td hmem2 hr hne)
      | true =>
        cases hemp0 : td0.peers.isEmpty with
        | true =>
          by_cases hdot : (goJoin s.dataPath td0.taskID).startsWith "."
          · simp [hr0, hemp0, hdot]
            exact Or.inr (ih s td hmem2 hr hne)
          · simp [hr0, hemp0, hdot]
            exact ih s td hmem2 hr hne
        | false =>
          simp [hr0, hemp0]
          exact Or.inr (ih _ td hmem2 hr hne)

theorem reloadPeers_errs (now : Int) (taskID : String) (peers : List DiskPeerDir) :
    ∀ s : StorageManager,
      (reloadPeers now taskID s peers).2 =
        (peers.filter fun p => metaFailed p).map DiskPeerDir.peerID := by
  induction peers with
  | nil => intro s; rfl
  | cons p rest ih =>
    intro s
    rw [reloadPeers_cons]
    cases hm : p.meta with
    | unopenable =>
      have hf : metaFailed p = true := by simp [metaFailed, hm]
      simp only [List.filter_cons, hf, if_true, List.map_cons]
      simp [ih s]
    | unparseable =>
      have hf : metaFailed p = true := by simp [metaFailed, hm]
      simp only [List.filter_cons, hf, if_true, List.map_cons]
      simp [ih s]
    | parseOk pm =>
      have hf : metaFailed p = false := by simp [metaFailed, hm]
      simp only [List.filter_cons, hf]
      simp [ih (registerReloaded now s taskID p.peerID pm)]

theorem reloadScan_errs_mem (now : Int) (dirs : List DiskTaskDir) :
    ∀ (s : StorageManager) (pair : String × String),
      pair ∈ (reloadScan now s dirs).2.1 ↔
        ∃ td, td ∈ dirs ∧ td.readable = true ∧ ∃ p, p ∈ td.peers ∧
          metaFailed p = true ∧ pair = (td.taskID, p.peerID) := by
  induction dirs with
  | nil =>
    intro s pair
    simp [reloadScan]
  | cons td0 rest ih =>
    intro s pair
    constructor
    · intro h
      rw [reloadScan_cons] at h
      by_cases hr : td0.readable = true
      · by_cases hemp : td0.peers.isEmpty = true
        · by_cases hdot : (goJoin s.dataPath td0.taskID).startsWith "."
          · simp only [hr, hemp, hdot] at h
            simp at h
            obtain ⟨td, h1, h2, h3⟩ := (ih s pair).mp h
            exact ⟨td, List.mem_cons_of_mem _ h1, h2, h3⟩
          · simp only [hr, hemp, hdot] at h
            simp [hdot] at h
            obtain ⟨td, h1, h2, h3⟩ := (ih s pair).mp h
            exact ⟨td, List.mem_cons_of_mem _ h1, h2, h3⟩
        · simp only [hr, hemp] at h
          simp [hemp] at h
          rcases h with hl | hrr
          · obtain ⟨pid, hpid, hpe⟩ := hl
            rw [reloadPeers_errs] at hpid
            obtain ⟨p, hp1, hp2⟩ := List.mem_map.mp hpid
            have hp3 := List.mem_filter.mp hp1
            refine ⟨td0, List.mem_cons_self _ _, hr, p, hp3.1, ?_, ?_⟩
            · simpa using hp3.2
            · rw [← hpe, ← hp2]
          · obtain ⟨td, h1, h2, h3⟩ := (ih _ pair).mp hrr
            exact ⟨td, List.mem_cons_of_mem _ h1, h2, h3⟩
      · simp [hr] at h
        obtain ⟨td, h1, h2, h3⟩ := (ih s pair).mp h
        exact ⟨td, List.mem_cons_of_mem _ h1, h2, h3⟩
    · rintro ⟨td, h1, h2, p, hp1, hp2, hp3⟩
      rw [reloadScan_cons]
      rcases List.mem_cons.mp h1 with he | h1'
      · subst he
        have hemp : td.peers.isEmpty = false := by
          cases hq : td.peers with
          | nil => rw [hq] at hp1; cases hp1
          | cons a l => rfl
        simp only [h2, hemp]
        simp
        refine Or.inl ⟨p.peerID, ?_, hp3.symm ▸ rfl⟩
        rw [reloadPeers_errs]
        exact List.mem_map_of_mem _ (List.mem_filter.mpr ⟨hp1, by simpa using hp2⟩)
      · by_cases hr0 : td0.readable = true
        · by_cases hemp0 : td0.peers.isEmpty = true
          · by_cases hdot : (goJoin s.dataPath td0.taskID).startsWith "."
            · simp only [hr0, hemp0, hdot]
              simp
              exact (ih s pair).mpr ⟨td, h1', h2, p, hp1, hp2, hp3⟩
            · simp only [hr0, hemp0, hdot]
              simp [hdot]
              exact (ih s pair).mpr ⟨td, h1', h2, p, hp1, hp2, hp3⟩
          · simp only [hr0, hemp0]
            simp [hemp0]
            exact Or.inr ((ih _ pair).mpr ⟨td, h1', h2, p, hp1, hp2, hp3⟩)
        · simp [hr0]
          exact (ih s pair).mpr ⟨td, h1', h2, p, hp1, hp2, hp3⟩

theorem reloadPeers_find_new (now : Int) (taskID : String)
    (peers : List DiskPeerDir) :
    ∀ (s : StorageManager) (k : PeerTaskMetadata),
      alistFind (reloadPeers now taskID s peers).1.tasks k = alistFind s.tasks k
      ∨ ∃ p, p ∈ peers ∧ metaFailed p = false ∧
          k = { PeerID := p.peerID, TaskID := taskID } := by
  induction peers with
  | nil => intro s k; exact Or.inl rfl
  | cons p rest ih =>
    intro s k
    cases hm : p.meta with
    | unopenable =>
      have h1 : (reloadPeers now taskID s (p :: rest)).1 =
          (reloadPeers now taskID s rest).1 := by
        rw [reloadPeers_cons]; simp [hm]
      rw [h1]
      rcases ih s k with h | ⟨q, hq1, hq2, hq3⟩
      · exact Or.inl h
      · exact Or.inr ⟨q, List.mem_cons_of_mem _ hq1, hq2, hq3⟩
    | unparseable =>
      have h1 : (reloadPeers now taskID s (p :: rest)).1 =
          (reloadPeers now taskID s rest).1 := by
        rw [reloadPeers_cons]; simp [hm]
      rw [h1]
      rcases ih s k with h | ⟨q, hq1, hq2, hq3⟩
      · exact Or.inl h
      · exact Or.inr ⟨q, List.mem_cons_of_mem _ hq1, hq2, hq3⟩
    | parseOk pm =>
      have h1 : (reloadPeers now taskID s (p :: rest)).1 =
          (reloadPeers now taskID (registerReloaded now s taskID p.peerID pm) rest).1 := by
        rw [reloadPeers_cons]; simp [hm]
      rw [h1]
      rcases ih (registerReloaded now s taskID p.peerID pm) k with h | ⟨q, hq1, hq2, hq3⟩
      · by_cases he : k = { PeerID := p.peerID, TaskID := taskID }
        · exact Or.inr ⟨p, List.mem_cons_self _ _, by simp [metaFailed, hm], he⟩
        · refine Or.inl ?_
          rw [h]
          exact registerReloaded_find_ne now s taskID p.peerID pm k he
      · exact Or.inr ⟨q, List.mem_cons_of_mem _ hq1, hq2, hq3⟩

theorem reloadScan_find_new (now : Int) (dirs : List DiskTaskDir) :
    ∀ (s : StorageManager) (k : PeerTaskMetadata),
      alistFind (reloadScan now s dirs).1.tasks k = alistFind s.tasks k
      ∨ ∃ td, td ∈ dirs ∧ td.readable = true ∧ ∃ p, p ∈ td.peers ∧
          metaFailed p = false ∧ k = { PeerID := p.peerID, TaskID := td.taskID } := by
  induction dirs with
  | nil => intro s k; exact Or.inl rfl
  | cons td0 rest ih =>
    intro s k
    cases hr : td0.readable with
    | false =>
      have h1 : (reloadScan now s (td0 :: rest)).1 = (reloadScan now s rest).1 := by
        rw [reloadScan_cons]; simp [hr]
      rw [h1]
      rcases ih s k with h | ⟨td, h1', h2, h3⟩
      · exact Or.inl h
      · exact Or.inr ⟨td, List.mem_cons_of_mem _ h1', h2, h3⟩
    | true =>
      cases hemp : td0.peers.isEmpty with
      | true =>
        have h1 : (reloadScan now s (td0 :: rest)).1 = (reloadScan now s rest).1 := by
          rw [reloadScan_cons]
          by_cases hdot : (goJoin s.dataPath td0.taskID).startsWith "."
          · simp [hr, hemp, hdot]
          · simp [hr, hemp, hdot]
        rw [h1]
        rcases ih s k with h | ⟨td, h1', h2, h3⟩
        · exact Or.inl h
        · exact Or.inr ⟨td, List.mem_cons_of_mem _ h1', h2, h3⟩
      | false =>
        have h1 : (reloadScan now s (td0 :: rest)).1 =
            (reloadScan now (reloadPeers now td0.taskID s td0.peers).1 rest).1 := by
          rw [reloadScan_cons]; simp [hr, hemp]
        rw [h1]
        rcases ih (reloadPeers now td0.taskID s td0.peers).1 k with h | ⟨td, ht1, ht2, ht3⟩
        · rcases reloadPeers_find_new now td0.taskID td0.peers s k with h2 | ⟨p, hp1, hp2, hp3⟩
          · exact Or.inl (h.trans h2)
          · exact Or.inr ⟨td0, List.mem_cons_self _ _, hr, p, hp1, hp2, hp3⟩
        · exact Or.inr ⟨td, List.mem_cons_of_mem _ ht1, ht2, ht3⟩

theorem symlinkCollect_acc (errs : List (String × String)) (tid : String)
    (peers : List DiskPeerDir) :
    ∀ (acc : List String) (x : String), x ∈ acc →
      x ∈ symlinkCollect errs tid peers acc := by
  induction peers with
  | nil => intro acc x h; exact h
  | cons p rest ih =>
    intro acc x h
    rw [symlinkCollect_cons]
    by_cases hc : (tid, p.peerID) ∈ errs ∧ p.data.present
    · rw [if_pos hc]
      cases hd : p.data.symlinkDest with
      | some d =>
        simp only [hd]
        exact List.mem_cons_of_mem _ (ih acc x h)
      | none =>
        simp only [hd]
        exact ih acc x h
    · rw [if_neg hc]
      exact ih acc x h

theorem symlinkCollect_mem (errs : List (String × String)) (tid : String)
    (peers : List DiskPeerDir) :
    ∀ (acc : List String) (p : DiskPeerDir) (d : String),
      p ∈ peers → (tid, p.peerID) ∈ errs → p.data.present = true →
      p.data.symlinkDest = some d →
      d ∈ symlinkCollect errs tid peers acc := by
  induction peers with
  | nil => intro acc p d h; cases h
  | cons q rest ih =>
    intro acc p d hmem herr hpres hdest
    rw [symlinkCollect_cons]
    rcases List.mem_cons.mp hmem with he | hmem2
    · subst he
      rw [if_pos ⟨herr, by simpa using hpres⟩]
      simp only [hdest]
      exact List.mem_cons_self _ _
    · have hin : d ∈ symlinkCollect errs tid rest acc := ih acc p d hmem2 herr hpres hdest
      by_cases hc : (tid, q.peerID) ∈ errs ∧ q.data.present
      · rw [if_pos hc]
        cases hd : q.data.symlinkDest with
        | some d2 =>
          simp only [hd]
          exact List.mem_cons_of_mem _ hin
        | none =>
          simp only [hd]
          exact hin
      · rw [if_neg hc]
        exact hin

theorem symlinkDests_mem (errs : List (String × String)) (root : List DiskTaskDir)
    (td : DiskTaskDir) (p : DiskPeerDir) (d : String)
    (hmem : td ∈ root) (hp : p ∈ td.peers) (herr : (td.taskID, p.peerID) ∈ errs)
    (hpres : p.data.present = true) (hdest : p.data.symlinkDest = some d) :
    d ∈ symlinkDests errs root := by
  induction root with
  | nil => cases hmem
  | cons td0 rest ih =>
    rw [symlinkDests_cons]
    rcases List.mem_cons.mp hmem with he | hmem2
    · subst he
      exact symlinkCollect_mem errs td.taskID td.peers _ p d hp herr hpres hdest
    · exact symlinkCollect_acc errs td0.taskID td0.peers _ d (ih hmem2)

/-- C6 (amended): after `ReloadPersistentTask` over a data root whose task
directories bear distinct names and whose peer directories bear distinct
names within each task directory, every peer directory of a readable task
directory is settled all-or-nothing by metadata alone: when its metadata
file opens, reads and parses, the store is registered under the directory
names and the peer directory survives in the returned root; when the
metadata fails, the peer directory is removed entirely from the returned
root, the peer is never newly registered, and the destination of an
existing `data` symbolic link is collected for removal.  (The dichotomy is
by metadata only: the data file's presence is never checked.) -/
theorem ReloadPersistentTask_dichotomy (s : StorageManager)
    (dirs : List DiskTaskDir) (now : Int)
    (hndt : (dirs.map DiskTaskDir.taskID).Nodup)
    (hndp : ∀ td ∈ dirs, (td.peers.map DiskPeerDir.peerID).Nodup) :
    ∃ root2,
      (s.ReloadPersistentTask (some dirs) now).2.1 = some root2 ∧
      ∀ td ∈ dirs, td.readable = true → ∀ p ∈ td.peers,
        (metaFailed p = false →
          (alistFind (s.ReloadPersistentTask (some dirs) now).1.tasks
            { PeerID := p.peerID, TaskID := td.taskID }).isSome = true ∧
          ∃ td2, td2 ∈ root2 ∧ td2.taskID = td.taskID ∧ p ∈ td2.peers) ∧
        (metaFailed p = true →
          (∀ td2 ∈ root2, td2.taskID = td.taskID → ∀ p2 ∈ td2.peers,
            p2.peerID ≠ p.peerID) ∧
          (alistFind s.tasks { PeerID := p.peerID, TaskID := td.taskID } = none →
            alistFind (s.ReloadPersistentTask (some dirs) now).1.tasks
              { PeerID := p.peerID, TaskID := td.taskID } = none) ∧
          (∀ d, p.data.present = true → p.data.symlinkDest = some d →
            d ∈ (s.ReloadPersistentTask (some dirs) now).2.2.1)) := by
  refine ⟨reloadRemoveErrs (reloadScan now s dirs).2.1 (reloadScan now s dirs).2.2,
    rfl, ?_⟩
  intro td hmem hr p hp
  constructor
  · intro hok
    obtain ⟨pm, hpm⟩ := metaFailed_false p hok
    constructor
    · show (alistFind (reloadScan now s dirs).1.tasks
        { PeerID := p.peerID, TaskID := td.taskID }).isSome = true
      exact reloadScan_registers now dirs s td p pm hmem hr hp hpm
    · have hne2 : td.peers ≠ [] := fun hq => by rw [hq] at hp; cases hp
      have hroot1 : td ∈ (reloadScan now s dirs).2.2 :=
        reloadScan_root_keeps now dirs s td hmem hr hne2
      refine ⟨{ td with peers := td.peers.filter fun q => ¬ (td.taskID, q.peerID) ∈ (reloadScan now s dirs).2.1 }, ?_, rfl, ?_⟩
      · unfold reloadRemoveErrs
        exact List.mem_map.mpr ⟨td, hroot1, rfl⟩
      · apply List.mem_filter.mpr
        refine ⟨hp, ?_⟩
        simp only [decide_eq_true_eq]
        intro hin
        obtain ⟨td2x, h1x, h2x, p2x, h3x, h4x, h5x⟩ :=
          (reloadScan_errs_mem now dirs s (td.taskID, p.peerID)).mp hin
        have hts : td.taskID = td2x.taskID := congrArg Prod.fst h5x
        have hps : p.peerID = p2x.peerID := congrArg Prod.snd h5x
        have htd : td = td2x := List.inj_on_of_nodup_map hndt hmem h1x hts
        rw [← htd] at h3x
        have hpp : p = p2x := List.inj_on_of_nodup_map (hndp td hmem) hp h3x hps
        rw [← hpp] at h4x
        simp [hok] at h4x
  · intro hfail
    have hpair : (td.taskID, p.peerID) ∈ (reloadScan now s dirs).2.1 :=
      (reloadScan_errs_mem now dirs s (td.taskID, p.peerID)).mpr
        ⟨td, hmem, hr, p, hp, hfail, rfl⟩
    refine ⟨?_, ?_, ?_⟩
    · intro td2 h2 hts p2 hp2 hpe
      unfold reloadRemoveErrs at h2
      obtain ⟨td1, htd1, heq⟩ := List.mem_map.mp h2
      rw [← heq] at hp2 hts
      have hts1 : td1.taskID = td.taskID := hts
      have hmf := List.mem_filter.mp hp2
      have hdec := hmf.2
      simp only [decide_eq_true_eq] at hdec
      apply hdec
      rw [hts1, hpe]
      exact hpair
    · intro hnone
      show alistFind (reloadScan now s dirs).1.tasks
        { PeerID := p.peerID, TaskID := td.taskID } = none
      rcases reloadScan_find_new now dirs s
          { PeerID := p.peerID, TaskID := td.taskID } with h | ⟨td2, h1, h2, p2, h3, h4, h5⟩
      · rw [h]; exact hnone
      · exfalso
        have hts : td.taskID = td2.taskID := congrArg PeerTaskMetadata.TaskID h5
        have hps : p.peerID = p2.peerID := congrArg PeerTaskMetadata.PeerID h5
        have htd : td = td2 := List.inj_on_of_nodup_map hndt hmem h1 hts
        rw [← htd] at h3
        have hpp : p = p2 := List.inj_on_of_nodup_map (hndp td hmem) hp h3 hps
        rw [← hpp] at h4
        simp [hfail] at h4
    · intro d hpres hdest
      have hne2 : td.peers ≠ [] := fun hq => by rw [hq] at hp; cases hp
      have hroot1 : td ∈ (reloadScan now s dirs).2.2 :=
        reloadScan_root_keeps now dirs s td hmem hr hne2
      show d ∈ symlinkDests (reloadScan now s dirs).2.1 (reloadScan now s dirs).2.2
      exact symlinkDests_mem _ _ td p d hroot1 hp hpair hpres hdest

/-- C6 witness: on a root with one readable task directory holding a
parseable peer and an unparseable peer whose data file is a symbolic link,
the dichotomy theorem applies with both hypotheses discharged by
computation. -/
theorem ReloadPersistentTask_dichotomy_witness :
    ∃ root2,
      (emptyManager.ReloadPersistentTask (some c6wRoot) 50).2.1 = some root2 ∧
      ∀ td ∈ c6wRoot, td.readable = true → ∀ p ∈ td.peers,
        (metaFailed p = false →
          (alistFind (emptyManager.ReloadPersistentTask (some c6wRoot) 50).1.tasks
            { PeerID := p.peerID, TaskID := td.taskID }).isSome = true ∧
          ∃ td2, td2 ∈ root2 ∧ td2.taskID = td.taskID ∧ p ∈ td2.peers) ∧
        (metaFailed p = true →
          (∀ td2 ∈ root2, td2.taskID = td.taskID → ∀ p2 ∈ td2.peers,
            p2.peerID ≠ p.peerID) ∧
          (alistFind emptyManager.tasks { PeerID := p.peerID, TaskID := td.taskID } = none →
            alistFind (emptyManager.ReloadPersistentTask (some c6wRoot) 50).1.tasks
              { PeerID := p.peerID, TaskID := td.taskID } = none) ∧
          (∀ d, p.data.present = true → p.data.symlinkDest = some d →
            d ∈ (emptyManager.ReloadPersistentTask (some c6wRoot) 50).2.2.1)) :=
  ReloadPersistentTask_dichotomy emptyManager c6wRoot 50 (by decide) (by decide)

/-- C6 counterexample to the literal claim: a peer directory whose metadata
parses but whose `data` file is missing is registered and its directory
kept unchanged, so the store is neither "fully restored" (its data is
absent) nor "removed entirely". -/
theorem Reload_missing_data_counterexample :
    (alistFind (emptyManager.ReloadPersistentTask (some c6Root) 50).1.tasks
      { PeerID := "peer-6", TaskID := "task-6" }).isSome = true
    ∧ (emptyManager.ReloadPersistentTask (some c6Root) 50).2.1 = some c6Root
    ∧ ∀ td ∈ c6Root, ∀ p ∈ td.peers, p.data.present = false := by
  decide

end Dragonfly
